import Mathlib

/-!
Verification development for the SAP career-coach orchestra core
(`utu/tools/memory_toolkit.py`, `utu/agents/orchestra/planner.py`,
`utu/agents/orchestra/context_builder.py`).

Python strings are modelled as `List Char` (one entry per Unicode code
point, matching Python `len`/indexing).  Each Lean definition is a direct
transcription of the corresponding Python function; stateful methods become
functions `state → args → state × result`.  The two "warning" emoji literals
are transcribed byte-faithfully from the source files: the memory-toolkit
compression marker is mojibake in the source (five code points
U+00E2 U+0161 U+00A0 U+00EF U+00B8), while the context-builder truncation
notice is a clean two-code-point "⚠️".
-/

namespace SapCoach

/-- Python `str`, one list entry per code point. -/
abbrev Str := List Char

/-- Coerce a Lean string literal to the `Str` model. -/
def S (s : String) : Str := s.data

/-- Decimal rendering of a natural number, as Python `str(n)` / f-string interpolation. -/
def natStr (n : Nat) : Str := (Nat.repr n).data

/-- Characters treated as whitespace by Python `str.strip` / regex `\s`
(ASCII whitespace plus U+00A0, the only non-ASCII whitespace occurring in
the repository's string literals). -/
def isPySpaceB (c : Char) : Bool :=
  c == ' ' || c == '\t' || c == '\n' || c == '\r' || c == '\x0b' || c == '\x0c' || c == '\u00A0'

/-- `leadsWith p l` : `p` is a prefix of `l` (Python `s.startswith(p)`). -/
def leadsWith : Str → Str → Bool
  | [], _ => true
  | _ :: _, [] => false
  | p :: ps, c :: cs => p == c && leadsWith ps cs

/-- Case-insensitive prefix test (regex `re.IGNORECASE` on ASCII names). -/
def leadsWithCI : Str → Str → Bool
  | [], _ => true
  | _ :: _, [] => false
  | p :: ps, c :: cs => p.toLower == c.toLower && leadsWithCI ps cs

/-- Python `needle in hay` substring test. -/
def isSubstr (p : Str) : Str → Bool
  | [] => leadsWith p []
  | c :: cs => leadsWith p (c :: cs) || isSubstr p cs

/-- Case-insensitive substring test. -/
def isSubstrCI (p : Str) : Str → Bool
  | [] => leadsWithCI p []
  | c :: cs => leadsWithCI p (c :: cs) || isSubstrCI p cs

/-- Fuelled worker for `pyCount`: counts non-overlapping occurrences. -/
def pyCountAux (nee : Str) : Nat → Str → Nat
  | 0, _ => 0
  | _ + 1, [] => 0
  | fuel + 1, c :: cs =>
    if leadsWith nee (c :: cs) then 1 + pyCountAux nee fuel ((c :: cs).drop nee.length)
    else pyCountAux nee fuel cs

/-- Python `hay.count(nee)`: non-overlapping occurrence count
(`hay.count("")` is `len(hay) + 1`). -/
def pyCount (hay nee : Str) : Nat :=
  if nee = [] then hay.length + 1 else pyCountAux nee hay.length hay

/-- Worker for `replace1`, replacing only the first occurrence. -/
def replace1Aux (old new : Str) : Str → Str
  | [] => []
  | c :: cs =>
    if leadsWith old (c :: cs) then new ++ (c :: cs).drop old.length
    else c :: replace1Aux old new cs

/-- Python `hay.replace(old, new, 1)`. -/
def replace1 (hay old new : Str) : Str :=
  if old = [] then new ++ hay else replace1Aux old new hay

/-- Worker for the `old = ""` case of Python `replace`: interleaves `new`. -/
def replaceEmptyAux (new : Str) : Str → Str
  | [] => new
  | c :: cs => new ++ c :: replaceEmptyAux new cs

/-- Fuelled worker for `pyReplaceAll`. -/
def pyReplaceAllAux (old new : Str) : Nat → Str → Str
  | 0, l => l
  | _ + 1, [] => []
  | fuel + 1, c :: cs =>
    if leadsWith old (c :: cs) then new ++ pyReplaceAllAux old new fuel ((c :: cs).drop old.length)
    else c :: pyReplaceAllAux old new fuel cs

/-- Python `hay.replace(old, new)` (all occurrences). -/
def pyReplaceAll (hay old new : Str) : Str :=
  if old = [] then replaceEmptyAux new hay else pyReplaceAllAux old new hay.length hay

/-- Python `s.split(c)` for a single-character separator; always non-empty. -/
def splitOnChar (sep : Char) : Str → List Str
  | [] => [[]]
  | c :: cs =>
    if c = sep then [] :: splitOnChar sep cs
    else
      match splitOnChar sep cs with
      | [] => [[c]]
      | piece :: rest => (c :: piece) :: rest

/-- Python `'\n'.join(pieces)`. -/
def joinNl : List Str → Str
  | [] => []
  | [x] => x
  | x :: y :: rest => x ++ '\n' :: joinNl (y :: rest)

/-- Python `sep.join(pieces)` for an arbitrary separator string. -/
def joinSep (sep : Str) : List Str → Str
  | [] => []
  | [x] => x
  | x :: y :: rest => x ++ sep ++ joinSep sep (y :: rest)

/-- Python `s.strip()`. -/
def pyStrip (l : Str) : Str :=
  ((l.dropWhile isPySpaceB).reverse.dropWhile isPySpaceB).reverse

/-- Python slice `l[-n:]` for a fixed positive `n`. -/
def takeLast (n : Nat) (l : List α) : List α := l.drop (l.length - n)

/-- Python `s.upper()` (ASCII). -/
def pyUpper (l : Str) : Str := l.map Char.toUpper

end SapCoach

namespace SapCoach

/-! ## Bounded Memory Store (`EnhancedMemoryToolkit`, memory_toolkit.py) -/

/-- Mutable state of an `EnhancedMemoryToolkit` instance: the buffer
`full_memory` plus the metadata fields the methods touch
(`compression_count`, `total_size`, `last_updated`).  The `categories`
metadata entry is initialised to `{}` and never written, so it is omitted
from the state and rendered as the constant `[]` in the status report. -/
structure MemState where
  full_memory : Str
  compression_count : Nat
  total_size : Nat
  last_updated : Option Str
deriving DecidableEq

/-- Freshly constructed toolkit state (`__init__`). -/
def memInit : MemState := ⟨[], 0, 0, none⟩

/-- `self.max_memory_size = 24000`. -/
def maxMemorySize : Nat := 24000

/-- `self.compression_threshold = 20000`. -/
def compressionThreshold : Nat := 20000

/-- `important_patterns` of `_compress_memory_content`. -/
def importantPatterns : List Str :=
  [S "KEY_FINDINGS", S "USER_PREFERENCES", S "RESEARCHED_TOPICS", S "TARGET_ROLE"]

/-- Body (without the surrounding newlines) of the compression marker
f-string of `_compress_memory_content`; the leading five code points are the
mojibake sequence present in the source file. -/
def markerBody (n : Nat) : Str :=
  S "\u00E2\u0161\u00A0\u00EF\u00B8 Memory compressed " ++ natStr n ++
    S " times to fit capacity limits"

/-- First loop of the dedup pass of `_compress_memory_content`:
iterate over `reversed(all_important)`, keep a line when it strips non-empty
and was not seen, re-inserting at the front. -/
def dedupeGo : List Str → List Str → List Str → List Str
  | [], acc, _ => acc
  | l :: rest, acc, seen =>
    if pyStrip l ≠ [] ∧ l ∉ seen then dedupeGo rest (l :: acc) (l :: seen)
    else dedupeGo rest acc seen

/-- Dedup pass of `_compress_memory_content` (most-recent occurrence wins,
original relative order preserved). -/
def dedupeRecent (ls : List Str) : List Str := dedupeGo ls.reverse [] []

/-- Line-selection pass of `_compress_memory_content`:
`important_lines + recent_lines` (the lines matching an important pattern,
followed by the last 50 lines). -/
def importantAndRecent (lines : List Str) : List Str :=
  (lines.filter fun l => importantPatterns.any fun p => isSubstr p l) ++ takeLast 50 lines

/-- `result = '\n'.join(compressed_lines)` of `_compress_memory_content`. -/
def compressedJoin (content : Str) : Str :=
  joinNl (dedupeRecent (importantAndRecent (splitOnChar '\n' content)))

/-- `result` of `_compress_memory_content` after the hard truncation step
(`result[-max_memory_size:]` when still too large). -/
def compressResult (content : Str) : Str :=
  if maxMemorySize < (compressedJoin content).length
  then takeLast maxMemorySize (compressedJoin content)
  else compressedJoin content

/-- `_compress_memory_content(content)`.  The method also increments the
`compression_count` metadata entry (used inside the marker), so the model
takes and returns that counter. -/
def compressContent (content : Str) (count : Nat) : Str × Nat :=
  if content.length ≤ maxMemorySize then (content, count)
  else ('\n' :: markerBody (count + 1) ++ '\n' :: compressResult content, count + 1)

/-- `_compress_memory_if_needed()`. -/
def compressIfNeeded (st : MemState) : MemState :=
  if compressionThreshold < st.full_memory.length then
    ⟨(compressContent st.full_memory st.compression_count).1,
      (compressContent st.full_memory st.compression_count).2,
      st.total_size, st.last_updated⟩
  else st

/-- `_update_metadata()`; `datetime.now().isoformat()` is passed in as `now`. -/
def updateMetadata (st : MemState) (now : Str) : MemState :=
  ⟨st.full_memory, st.compression_count, st.full_memory.length, some now⟩

/-- `_read_memory()`. -/
def readMemory (st : MemState) : Str :=
  if pyStrip st.full_memory = [] then
    S "No previous conversation memory found. This is the start of our conversation about SAP career guidance."
  else st.full_memory

/-- Content/counter pair stored by `_write_memory`: oversized content is
compressed first. -/
def writeStored (st : MemState) (content : Str) : Str × Nat :=
  if maxMemorySize < content.length then compressContent content st.compression_count
  else (content, st.compression_count)

/-- `_write_memory(content)`. -/
def writeMemory (st : MemState) (now content : Str) : MemState × Str :=
  if st.full_memory ≠ [] then
    (updateMetadata ⟨(writeStored st content).1, (writeStored st content).2,
      st.total_size, st.last_updated⟩ now,
     S "Warning: Overwriting existing content (" ++ natStr st.full_memory.length ++
       S " chars). New content size: " ++ natStr (writeStored st content).1.length ++
       S " chars. Memory has been updated successfully.")
  else
    (updateMetadata ⟨(writeStored st content).1, (writeStored st content).2,
      st.total_size, st.last_updated⟩ now,
     S "Memory updated successfully. Size: " ++ natStr (writeStored st content).1.length ++
       S " chars.")

/-- `_edit_memory(old_string, new_string)`. -/
def editMemory (st : MemState) (now old new : Str) : MemState × Str :=
  if ¬ isSubstr old st.full_memory then
    (st, S "Error: '" ++ old ++ S "' not found in memory.")
  else if 1 < pyCount st.full_memory old then
    (st, S "Warning: Found " ++ natStr (pyCount st.full_memory old) ++ S " occurrences of '" ++
      old ++ S "'. Please provide more specific context or use edit_multiple operation.")
  else
    (updateMetadata
      (if compressionThreshold < (replace1 st.full_memory old new).length
       then compressIfNeeded ⟨replace1 st.full_memory old new, st.compression_count,
         st.total_size, st.last_updated⟩
       else ⟨replace1 st.full_memory old new, st.compression_count,
         st.total_size, st.last_updated⟩) now,
     S "Memory edited successfully. 1 occurrence replaced.")

/-- Thousands-separated rendering of a natural number (Python format `:,`). -/
def natStrComma (n : Nat) : Str :=
  let ds := natStr n
  joinSep [','] ((ds.reverse.toChunks 3).map List.reverse).reverse

/-- `_get_memory_status()`.  The percentage in the real code is a float
formatted with `%.1f`; it is modelled here in integer tenths of a percent
(no claim depends on this string).  The leading code points of the first
line and the warning line are the mojibake sequences of the source file. -/
def getMemoryStatus (st : MemState) : Str :=
  let pctTenths := st.full_memory.length * 1000 / maxMemorySize
  let statusLines : List Str :=
    [S "\u00F0\u0178\u00A7\u00A0 Enhanced Memory Status:",
     S "   Capacity: " ++ natStrComma st.full_memory.length ++ S "/" ++ natStrComma maxMemorySize ++
       S " characters (" ++ natStr (pctTenths / 10) ++ S "." ++ natStr (pctTenths % 10) ++ S "%)",
     S "   Last Updated: " ++ (match st.last_updated with | some t => t | none => S "None"),
     S "   Compression Events: " ++ natStr st.compression_count,
     S "   Categories: []"]
  let statusLines :=
    if compressionThreshold < st.full_memory.length then
      statusLines ++ [S "   \u00E2\u0161\u00A0\u00EF\u00B8  Memory nearing capacity - compression may occur soon"]
    else statusLines
  joinNl statusLines

/-- `enhanced_memory(action, content, old_string, new_string)`: the public
dispatcher of `EnhancedMemoryToolkit`. -/
def enhancedMemory (st : MemState) (now action content old new : Str) : MemState × Str :=
  if action = S "read" then (st, readMemory st)
  else if action = S "write" then writeMemory st now content
  else if action = S "edit" then editMemory st now old new
  else if action = S "status" then (st, getMemoryStatus st)
  else if action = S "compress" then
    (⟨(compressContent st.full_memory st.compression_count).1,
       (compressContent st.full_memory st.compression_count).2,
       st.total_size, st.last_updated⟩,
     S "Memory compressed from " ++ natStr st.full_memory.length ++ S " to " ++
       natStr (compressContent st.full_memory st.compression_count).1.length ++ S " characters.")
  else
    (st, S "Error: Unknown action '" ++ action ++ S "'. Valid actions: read, write, edit, status, compress.")

end SapCoach

namespace SapCoach

/-! ## SimpleMemoryToolkit (memory_toolkit.py) -/

/-- Runtime value returned by `SimpleMemoryToolkit` methods.  The
`count > 1` branch of `_edit_memory` is written with `{ ... }` braces in the
source, i.e. it returns a Python `set` of one string rather than a string,
so the return type is modelled as this tagged union. -/
inductive PyVal where
  | pstr (s : Str)
  | pset (elems : List Str)
deriving DecidableEq

/-- `SimpleMemoryToolkit._write_memory(content)` (state is the buffer). -/
def simpleWriteMemory (mem content : Str) : Str × Str :=
  if mem ≠ [] then
    (content,
     S "Warning: Overwriting existing content. Previous content was:\n" ++ mem ++
       S "\n\nMemory has been updated successfully.")
  else (content, S "Memory updated successfully.")

/-- `SimpleMemoryToolkit._edit_memory(old_string, new_string)`. -/
def simpleEditMemory (mem old new : Str) : Str × PyVal :=
  if ¬ isSubstr old mem then
    (mem, .pstr (S "Error: '" ++ old ++ S "' not found in memory."))
  else if 1 < pyCount mem old then
    (mem, .pset [S "Warning: Found " ++ natStr (pyCount mem old) ++ S " occurrences of '" ++
      old ++ S "'. Please confirm which occurrence to replace or use more specific context."])
  else (pyReplaceAll mem old new, .pstr (S "Edited memory: 1 occurrence replaced."))

/-- `simple_memory(action, content, old_string, new_string)`: public
dispatcher of `SimpleMemoryToolkit`. -/
def simpleMemory (mem action content old new : Str) : Str × PyVal :=
  if action = S "read" then (mem, .pstr mem)
  else if action = S "write" then
    let r := simpleWriteMemory mem content
    (r.1, .pstr r.2)
  else if action = S "edit" then simpleEditMemory mem old new
  else
    (mem, .pstr (S "Error: Unknown action '" ++ action ++ S "'. Valid actions are read, write, edit."))

/-! ## Context Assembler (`ContextBuilder`, context_builder.py) -/

/-- `self.max_context_length = 24000`. -/
def maxContextLength : Nat := 24000

/-- `self.max_conversation_history = 10`. -/
def maxConversationHistory : Nat := 10

/-- One conversation exchange (`{'user_input': ..., 'response': ...}`). -/
structure Exchange where
  user_input : Str
  response : Str
deriving DecidableEq

/-- Truncation notice prepended by `_truncate_context` (clean two-code-point
warning emoji in this file). -/
def noticeStr : Str := S "⚠️ Context truncated for token limits\n\n"

/-- History loop of `build_memory_context_string` (`enumerate(..., 1)`). -/
def histGo : Nat → List Exchange → List Str
  | _, [] => []
  | i, e :: rest =>
    (S "Q" ++ natStr i ++ S ": " ++ e.user_input.take 300) ::
      (S "A" ++ natStr i ++ S ": " ++ e.response.take 500) :: [] :: histGo (i + 1) rest

/-- `key_lines` of `build_memory_context_string`: the last 20 memory lines
that strip non-empty and are shorter than 500 characters, stripped. -/
def keyLinesOf (mem : Str) : List Str :=
  (takeLast 20 (splitOnChar '\n' mem)).filterMap fun l =>
    if pyStrip l ≠ [] ∧ l.length < 500 then some (pyStrip l) else none

/-- Per-agent section of `build_memory_context_string`: header line, joined
key lines when non-empty, and a trailing empty part. -/
def agentSection (name mem : Str) : List Str :=
  (pyUpper name ++ S "_MEMORY:") ::
    ((if keyLinesOf mem ≠ [] then [joinNl (keyLinesOf mem)] else []) ++ [[]])

/-- `context_parts` of `build_memory_context_string`.  The guard
`if memory and memory.strip():` is equivalent to `strip(memory) ≠ ""`. -/
def buildParts (mems : List (Str × Str)) (hist : List Exchange) : List Str :=
  (if hist ≠ [] then S "RECENT CONVERSATION HISTORY:" :: histGo 1 (takeLast maxConversationHistory hist)
   else []) ++
  List.flatten (mems.map fun p => if pyStrip p.2 ≠ [] then agentSection p.1 p.2 else [])

/-- Greedy keep-whole-lines loop of `_truncate_context`: iterate the lines in
reverse, keep a line while the running budget (line length plus one) fits,
stop at the first line that does not fit. -/
def truncGo : List Str → List Str → Nat → List Str
  | [], acc, _ => acc
  | l :: rest, acc, cur =>
    if cur + l.length + 1 ≤ maxContextLength then truncGo rest (l :: acc) (cur + l.length + 1)
    else acc

/-- The `result` string rebuilt by `_truncate_context` from the kept lines. -/
def truncKept (context : Str) : Str :=
  joinNl (truncGo (splitOnChar '\n' context).reverse [] 0)

/-- `_truncate_context(context)`. -/
def truncateContext (context : Str) : Str :=
  if context.length ≤ maxContextLength then context
  else if (truncKept context).length < context.length then noticeStr ++ truncKept context
  else truncKept context

/-- `build_memory_context_string(agent_memories, conversation_history)`;
the ordered association list models the insertion-ordered dict. -/
def buildMemoryContextString (mems : List (Str × Str)) (hist : List Exchange) : Str :=
  if maxContextLength < (joinSep (S "\n\n") (buildParts mems hist)).length
  then truncateContext (joinSep (S "\n\n") (buildParts mems hist))
  else joinSep (S "\n\n") (buildParts mems hist)

end SapCoach

namespace SapCoach

/-! ## Plan Extractor (`OutputParser`, planner.py)

The `re` patterns of `OutputParser` are transcribed as deterministic
scanners.  Notes on regex semantics reproduced here:

* `re.findall` scans left to right for non-overlapping matches; a pattern
  anchored with `^` (MULTILINE) can only match at position 0 or right after
  a newline.
* In `[A-Za-z]+Agent` followed by `:` (or `**:`), the group always matches a
  maximal alphabetic run, which must have length at least 6 and end in
  "Agent" (the `+` must contribute at least one extra letter).
* `\s*` before a disjoint character class is equivalent to skipping the
  maximal whitespace run.
* A lazy group `(.+?)` followed by a lookahead stops at the first position
  (after at least one character) where the lookahead or the end anchor
  matches; if the text after `\s*` is exhausted, the engine backtracks the
  greedy `\s*` by one character so the lazy group can consume it.
-/

/-- Modelled from the spec: the plain `Subtask` record of
`utu/agents/orchestra/common.py`, which is not part of the provided source
tree; its shape is fixed by spec section 3 ("Subtask: agent_name,
task_description, completed") and by the constructor calls
`Subtask(agent_name=..., task=..., completed=False)` in planner.py. -/
structure Subtask where
  agent_name : Str
  task : Str
  completed : Bool
deriving DecidableEq

/-- Modelled from the spec: the `CreatePlanResult` record of
`utu/agents/orchestra/common.py` (not in the provided source tree); shape
fixed by spec section 3 ("Plan: analysis, subtasks") and the construction
`CreatePlanResult(analysis=analysis, todo=plan)` in planner.py. -/
structure CreatePlanResult where
  analysis : Str
  todo : List Subtask
deriving DecidableEq

/-- Modelled from the spec: the `AgentInfo` roster record (spec section 3,
"Agent Descriptor: name, description, strengths, weaknesses"); only `name`
is read by the output parser. -/
structure AgentInfo where
  name : Str
  desc : Str
  strengths : Str
  weaknesses : Str
deriving DecidableEq

/-- Minimal position (at least 0) from which the stop predicate `la` holds;
callers only use predicates with `la [] = true`, so the scan terminates at
the end of the text. -/
def findStop0 (la : Str → Bool) : Str → Nat
  | [] => 0
  | c :: cs => if la (c :: cs) then 0 else 1 + findStop0 la cs

/-- Parse `\s*\d+\.\s*` (used by both numbered-task patterns and their
lookaheads), returning the suffix after the trailing `\s*`. -/
def headerAfterNum (s : Str) : Option Str :=
  let l1 := s.dropWhile isPySpaceB
  let ds := l1.takeWhile Char.isDigit
  if ds = [] then none
  else
    match l1.drop ds.length with
    | '.' :: l3 => some (l3.dropWhile isPySpaceB)
    | _ => none

/-- Parse `([A-Za-z]+Agent):`, returning the agent name and the suffix after
the colon. -/
def matchAgentColon (l : Str) : Option (Str × Str) :=
  let run := l.takeWhile Char.isAlpha
  if 6 ≤ run.length ∧ leadsWith (S "Agent") (run.drop (run.length - 5)) then
    match l.drop run.length with
    | ':' :: rest => some (run, rest)
    | _ => none
  else none

/-- Parse `\*\*([A-Za-z]+Agent)\*\*:`. -/
def matchBoldAgentColon (l : Str) : Option (Str × Str) :=
  if leadsWith (S "**") l then
    let l1 := l.drop 2
    let run := l1.takeWhile Char.isAlpha
    if 6 ≤ run.length ∧ leadsWith (S "Agent") (run.drop (run.length - 5)) then
      match l1.drop run.length with
      | '*' :: '*' :: ':' :: rest => some (run, rest)
      | _ => none
    else none
  else none

/-- Lookahead `\n\s*\d+\.\s*[A-Za-z]+Agent:` of the simple numbered pattern,
or the `\Z` end anchor. -/
def laSimple : Str → Bool
  | [] => true
  | '\n' :: t =>
    match headerAfterNum t with
    | some l4 => (matchAgentColon l4).isSome
    | none => false
  | _ => false

/-- Lookahead `\n\s*\d+\.\s*\*\*` of the bold numbered pattern, or `\Z`. -/
def laBold : Str → Bool
  | [] => true
  | '\n' :: t =>
    match headerAfterNum t with
    | some l4 => leadsWith (S "**") l4
    | none => false
  | _ => false

/-- Capture of `\s*(.+?)` with `re.DOTALL` up to the stop predicate `la`:
skip the maximal whitespace run, then take at least one character and stop
as soon as `la` holds; when nothing follows the whitespace run, the engine
backtracks `\s*` and the lazy group captures the run's final character. -/
def captureDotAll (after : Str) (la : Str → Bool) : Option (Str × Str) :=
  match after.dropWhile isPySpaceB with
  | c :: cs =>
    let e := 1 + findStop0 la cs
    some ((c :: cs).take e, (c :: cs).drop e)
  | [] =>
    match (after.takeWhile isPySpaceB).getLast? with
    | some d => some ([d], [])
    | none => none

/-- Parse one match of the simple numbered pattern
`^\s*\d+\.\s*([A-Za-z]+Agent):\s*(.+?)(?=\n\s*\d+\.\s*[A-Za-z]+Agent:|\Z)`
from a line-start position, returning (agent, capture, rest). -/
def tryMatchSimple (s : Str) : Option (Str × Str × Str) :=
  match headerAfterNum s with
  | some l4 =>
    match matchAgentColon l4 with
    | some (agent, after) =>
      match captureDotAll after laSimple with
      | some (cap, rest) => some (agent, cap, rest)
      | none => none
    | none => none
  | none => none

/-- Parse one match of the bold numbered pattern
`^\s*\d+\.\s*\*\*([A-Za-z]+Agent)\*\*:\s*(.+?)(?=\n\s*\d+\.\s*\*\*|\Z)`. -/
def tryMatchBold (s : Str) : Option (Str × Str × Str) :=
  match headerAfterNum s with
  | some l4 =>
    match matchBoldAgentColon l4 with
    | some (agent, after) =>
      match captureDotAll after laBold with
      | some (cap, rest) => some (agent, cap, rest)
      | none => none
    | none => none
  | none => none

/-- MULTILINE `\s*$` stop of the bullet pattern: from here, skipping
non-newline whitespace reaches the end of the text or a newline. -/
def stopBullet (s : Str) : Bool :=
  match s.dropWhile (fun c => isPySpaceB c && c != '\n') with
  | [] => true
  | '\n' :: _ => true
  | _ => false

/-- Lookahead `\n\s*-\s*[A-Za-z]+Agent:` of the bullet pattern. -/
def laBulletHeader : Str → Bool
  | '\n' :: t =>
    match t.dropWhile isPySpaceB with
    | '-' :: t2 => (matchAgentColon (t2.dropWhile isPySpaceB)).isSome
    | _ => false
  | _ => false

/-- Combined stop predicate of the bullet pattern's lookahead
`(?=\n\s*-\s*[A-Za-z]+Agent:|\s*$)`. -/
def laBullet (s : Str) : Bool := laBulletHeader s || stopBullet s

/-- Capture of `\s*(.+?)` without DOTALL (bullet pattern): as
`captureDotAll`, but on backtracking the lazy `.` cannot consume a newline,
so the captured character is the last non-newline character of the
whitespace run and the run's trailing newlines remain unconsumed. -/
def captureBullet (after : Str) : Option (Str × Str) :=
  match after.dropWhile isPySpaceB with
  | c :: cs =>
    let e := 1 + findStop0 laBullet cs
    some ((c :: cs).take e, (c :: cs).drop e)
  | [] =>
    let run := after.takeWhile isPySpaceB
    match run.reverse.dropWhile (fun d => d == '\n') with
    | d :: _ => some ([d], (run.reverse.takeWhile (fun d => d == '\n')).reverse)
    | [] => none

/-- Parse one match of the bullet pattern
`^\s*-\s*([A-Za-z]+Agent):\s*(.+?)(?=\n\s*-\s*[A-Za-z]+Agent:|\s*$)`. -/
def tryMatchBullet (s : Str) : Option (Str × Str × Str) :=
  match s.dropWhile isPySpaceB with
  | '-' :: l2 =>
    match matchAgentColon (l2.dropWhile isPySpaceB) with
    | some (agent, after) =>
      match captureBullet after with
      | some (cap, rest) => some (agent, cap, rest)
      | none => none
    | none => none
  | _ => none

/-- `re.findall` driver: walk the text keeping track of whether the current
position is a line start (where `^` can match), emit each match of `try1`
and resume after its capture.  The fuel is an upper bound on the number of
steps; each step strictly shortens the remaining text. -/
def scanRe (try1 : Str → Option (Str × Str × Str)) : Nat → Str → Bool → List (Str × Str)
  | 0, _, _ => []
  | _ + 1, [], _ => []
  | fuel + 1, c :: cs, ls =>
    if ls then
      match try1 (c :: cs) with
      | some (agent, cap, rest) =>
        (agent, cap) :: scanRe try1 fuel rest (cap.getLast? == some '\n')
      | none => scanRe try1 fuel cs (c == '\n')
    else scanRe try1 fuel cs (c == '\n')

/-- `re.findall(numbered_bold_pattern, text, re.MULTILINE | re.DOTALL)`. -/
def numberedBoldMatches (text : Str) : List (Str × Str) :=
  scanRe tryMatchBold (text.length + 1) text true

/-- `re.findall(simple_numbered_pattern, text, re.MULTILINE | re.DOTALL)`. -/
def simpleNumberedMatches (text : Str) : List (Str × Str) :=
  scanRe tryMatchSimple (text.length + 1) text true

/-- `re.findall(task_pattern, text, re.MULTILINE)` (bullet format). -/
def bulletMatches (text : Str) : List (Str × Str) :=
  scanRe tryMatchBullet (text.length + 1) text true

end SapCoach

namespace SapCoach

/-- Stop predicate of the plan-section pattern: `(?=\n##|\Z)`. -/
def laPlan (s : Str) : Bool := s.isEmpty || leadsWith (S "\n##") s

/-- Stop predicate of the analysis pattern: `(?=\n##|\n\d+\.|\Z)`. -/
def laAnalysis (s : Str) : Bool :=
  s.isEmpty || leadsWith (S "\n##") s ||
    (match s with
     | '\n' :: t =>
       let ds := t.takeWhile Char.isDigit
       !ds.isEmpty && leadsWith [ '.' ] (t.drop ds.length)
     | _ => false)

/-- `re.search` for a section pattern `LIT\s*\n(.*?)(?=STOP)` with DOTALL:
find the leftmost occurrence of the literal whose following maximal
whitespace run contains a newline; the greedy `\s*\n` consumes through the
last newline of that run, and the lazy group captures up to the first
position where the stop predicate holds (the end always qualifies). -/
def planScanGo (lit : Str) (la : Str → Bool) : Str → Option Str
  | [] => none
  | c :: cs =>
    if leadsWith lit (c :: cs) then
      let after := (c :: cs).drop lit.length
      let run := after.takeWhile isPySpaceB
      if '\n' ∈ run then
        let rest := (run.reverse.takeWhile fun d => d ≠ '\n').reverse ++ after.drop run.length
        some (rest.take (findStop0 la rest))
      else planScanGo lit la cs
    else planScanGo lit la cs

/-- `_extract_analysis(text)`: search `## Query Analysis\s*\n(.*?)(?=\n##|\n\d+\.|\Z)`
and strip the capture, defaulting to the empty string. -/
def extractAnalysis (text : Str) : Str :=
  match planScanGo (S "## Query Analysis") laAnalysis text with
  | some cap => pyStrip cap
  | none => []

/-- Group 1 of `re.search(plan_pattern, text, re.DOTALL)` with
`plan_pattern = ## Agent Action Plan\s*\n(.*?)(?=\n##|\Z)`. -/
def planSectionContent (text : Str) : Option Str :=
  planScanGo (S "## Agent Action Plan") laPlan text

/-- Characters of the `[\s:]+` separator class in the free-text pattern. -/
def isSepChar (c : Char) : Bool := isPySpaceB c || c == ':'

/-- Stop predicate of the free-text pattern's lookahead
`(?=(?:NAME1|NAME2|...|$))` with IGNORECASE and without MULTILINE:
some roster name matches here case-insensitively, or `$` holds (end of
text, or just before a single trailing newline). -/
def laFree (names : List Str) (s : Str) : Bool :=
  s.isEmpty || s == ['\n'] || names.any fun n => leadsWithCI n s

/-- `re.search(rf'NAME[\s:]+(.*?)(?=(?:NAMES|$))', text, re.DOTALL | re.IGNORECASE)`:
leftmost occurrence of the agent name (case-insensitive) followed by at
least one separator character; the greedy `[\s:]+` consumes the maximal
separator run, and the lazy group captures up to the first stop position. -/
def ftScan (names : List Str) (name : Str) : Str → Option Str
  | [] => none
  | c :: cs =>
    if leadsWithCI name (c :: cs) &&
        (match ((c :: cs).drop name.length).head? with
         | some d => isSepChar d
         | none => false) then
      let rest := ((c :: cs).drop name.length).dropWhile isSepChar
      some (rest.take (findStop0 (laFree names) rest))
    else ftScan names name cs

/-- Body of one iteration of the free-text loop: when the search succeeded
and the stripped capture is non-empty, one subtask is appended. -/
def ftChunk (n : Str) : Option Str → List Subtask
  | some cap => if pyStrip cap ≠ [] then [⟨n, pyStrip cap, false⟩] else []
  | none => []

/-- Final fallback loop of `_extract_plan_fallback`: for each roster name in
roster order, search its free-text mention and append a subtask when the
stripped capture is non-empty. -/
def ftGo (text : Str) (allNames : List Str) : List Str → List Subtask
  | [] => []
  | n :: rest => ftChunk n (ftScan allNames n text) ++ ftGo text allNames rest

/-- Free-text agent-mention strategy over the full roster. -/
def freeTextTasks (text : Str) (names : List Str) : List Subtask :=
  ftGo text names names

/-- Roster names used by `_extract_plan_fallback`
(`[agent.name for agent in self.available_agents]` with a hard-coded
default roster when the list is empty). -/
def rosterNames (agents : List AgentInfo) : List Str :=
  if agents ≠ [] then agents.map AgentInfo.name
  else [S "ResearchAgent", S "AnalysisAgent", S "SkillsDevelopmentAgent", S "SynthesisAgent"]

/-- Generic description of the minimal fallback subtask. -/
def genericFallbackTask : Str :=
  S "Research SAP career information and provide relevant guidance"

/-- The minimal fallback subtask (`agent_names[0] if agent_names else "ResearchAgent"`). -/
def minimalFallback (names : List Str) : Subtask :=
  ⟨names.headD (S "ResearchAgent"), genericFallbackTask, false⟩

/-- Turn `re.findall` pairs into subtasks (`task_desc.strip()`, completed
false), as in every strategy branch of the parser. -/
def mkTasks (ms : List (Str × Str)) : List Subtask :=
  ms.map fun p => ⟨p.1, pyStrip p.2, false⟩

/-- `OutputParser._extract_plan_fallback(text)`. -/
def extractPlanFallback (text : Str) (agents : List AgentInfo) : List Subtask :=
  if numberedBoldMatches text ≠ [] then mkTasks (numberedBoldMatches text)
  else if simpleNumberedMatches text ≠ [] then mkTasks (simpleNumberedMatches text)
  else if bulletMatches text ≠ [] then mkTasks (bulletMatches text)
  else if freeTextTasks text (rosterNames agents) = [] then [minimalFallback (rosterNames agents)]
  else freeTextTasks text (rosterNames agents)

/-- `OutputParser._extract_plan(text)`. -/
def extractPlan (text : Str) (agents : List AgentInfo) : List Subtask :=
  match planSectionContent text with
  | none => extractPlanFallback text agents
  | some raw =>
    if numberedBoldMatches (pyStrip raw) ≠ [] then mkTasks (numberedBoldMatches (pyStrip raw))
    else if simpleNumberedMatches (pyStrip raw) ≠ [] then mkTasks (simpleNumberedMatches (pyStrip raw))
    else extractPlanFallback text agents

/-- `OutputParser.parse(output_text)` for a parser constructed with the
given roster. -/
def parseOutput (text : Str) (agents : List AgentInfo) : CreatePlanResult :=
  ⟨extractAnalysis text, extractPlan text agents⟩

end SapCoach

namespace SapCoach

/-! ## Derived predicates and concrete instances used by the theorems -/

/-- All extraction strategies fail on `text` for this roster: no match for
the two numbered patterns or the bullet pattern on the whole text, no
free-text agent mention, and, when a plan section is found, no numbered
match inside it either.  This is the hypothesis of the minimal-fallback
branch of `_extract_plan_fallback`. -/
def NoStrategyYields (text : Str) (agents : List AgentInfo) : Prop :=
  numberedBoldMatches text = [] ∧ simpleNumberedMatches text = [] ∧ bulletMatches text = [] ∧
    freeTextTasks text (rosterNames agents) = [] ∧
    ∀ raw, planSectionContent text = some raw →
      numberedBoldMatches (pyStrip raw) = [] ∧ simpleNumberedMatches (pyStrip raw) = []

/-- Index of the first case-insensitive occurrence of `p`. -/
def firstIdxCI (p : Str) : Str → Option Nat
  | [] => if leadsWithCI p [] then some 0 else none
  | c :: cs => if leadsWithCI p (c :: cs) then some 0 else (firstIdxCI p cs).map (· + 1)

/-- Interleave the empty string between consecutive parts:
`"\n\n".join(parts)` equals `'\n'.join(sepEmpty parts)`. -/
def sepEmpty : List Str → List Str
  | [] => []
  | [x] => [x]
  | x :: y :: rest => x :: [] :: sepEmpty (y :: rest)

/-- Budget cost of a line list in `_truncate_context`: each line costs its
length plus one. -/
def sumCost (ls : List Str) : Nat := ls.foldr (fun l a => l.length + 1 + a) 0

/-- Demo roster entries. -/
def researchAgentInfo : AgentInfo := ⟨S "ResearchAgent", [], [], []⟩

/-- Demo roster entry for AnalysisAgent. -/
def analysisAgentInfo : AgentInfo := ⟨S "AnalysisAgent", [], [], []⟩

/-- Two-agent roster of the end-to-end scenario. -/
def demoRoster : List AgentInfo := [researchAgentInfo, analysisAgentInfo]

/-- Input text of the end-to-end scenario (claim C8). -/
def c8Text : Str := S "1. ResearchAgent: find certs\n2. AnalysisAgent: assess skills"

/-- Free-text input whose agent mentions appear in the opposite of roster
order. -/
def c6Text : Str :=
  S "AnalysisAgent should assess trends and then ResearchAgent should gather data"

/-- A line carrying an important pattern followed by `n` filler `a`s. -/
def keyLine (n : Nat) : Str := S "KEY_FINDINGS" ++ List.replicate n 'a'

/-- First line of the compression counterexample buffer: an important
pattern followed by 433 `b`s (the `b`s mark content that the second
compression pass silently discards). -/
def c3Head : Str := S "KEY_FINDINGS" ++ List.replicate 433 'b'

/-- Fifty further important lines, pairwise distinct by length. -/
def c3Tail : List Str := (List.range 50).map fun i => keyLine (434 + i)

/-- The 24020-character counterexample buffer: 51 important lines, so the
hard truncation of the first pass cuts into the first line and destroys its
pattern. -/
def c3Big : Str := joinNl (c3Head :: c3Tail)

/-- The `seen` set threaded through `dedupeGo`, as its own recursion (proof
device used to split a `dedupeGo` run at a list append). -/
def dgSeen : List Str → List Str → List Str
  | [], seen => seen
  | l :: rest, seen =>
    if pyStrip l ≠ [] ∧ l ∉ seen then dgSeen rest (l :: seen) else dgSeen rest seen

/-- Non-empty memory state used for the write-status claims. -/
def c7St : MemState := ⟨S "secret42", 0, 8, none⟩

/-- Memory state with two occurrences of `alpha`. -/
def c4St : MemState := ⟨S "alpha beta alpha", 0, 16, none⟩

/-- A 498-character memory line (under the 500-character key-line cap). -/
def rep498 : Str := List.replicate 498 'a'

/-- A 20-line agent memory of 498-character lines. -/
def memX : Str := joinNl (List.replicate 20 rep498)

/-- Three agents with full 20-line memories: the assembled context is 29980
characters and must be truncated. -/
def c5Mems : List (Str × Str) := [(S "A", memX), (S "B", memX), (S "C", memX)]

end SapCoach

namespace SapCoach

/-! ## Helper lemmas -/

theorem leadsWith_append (p r : Str) : leadsWith p (p ++ r) = true := by
  induction p with
  | nil => rfl
  | cons c cs ih => simp [leadsWith, ih]

theorem isSubstr_sandwich (pre p post : Str) : isSubstr p (pre ++ (p ++ post)) = true := by
  induction pre with
  | nil =>
    cases hp : p ++ post with
    | nil =>
      have : p = [] := by cases p <;> simp_all
      simp [this, isSubstr, leadsWith]
    | cons c cs => simp [isSubstr, ← hp, leadsWith_append]
  | cons c cs ih => simp [isSubstr, ih]

theorem isSubstr_not_mem_head (c : Char) (p l : Str) (h : c ∉ l) :
    isSubstr (c :: p) l = false := by
  induction l with
  | nil => rfl
  | cons d ds ih =>
    have hcd : c ≠ d := fun hcd => h (hcd ▸ List.mem_cons_self d ds)
    have hmem : c ∉ ds := fun hm => h (List.mem_cons_of_mem d hm)
    simp [isSubstr, leadsWith, ih hmem, Ne.symm hcd, hcd]

theorem dropWhile_eq_self_of_none (q : Char → Bool) (l : Str)
    (h : ∀ c ∈ l, q c = false) : l.dropWhile q = l := by
  cases l with
  | nil => rfl
  | cons c cs => simp [List.dropWhile, h c (List.mem_cons_self c cs)]

theorem pyStrip_id_of_no_space (l : Str) (h : ∀ c ∈ l, isPySpaceB c = false) :
    pyStrip l = l := by
  unfold pyStrip
  rw [dropWhile_eq_self_of_none _ _ h,
    dropWhile_eq_self_of_none _ _ (fun c hc => h c (List.mem_reverse.mp hc)),
    List.reverse_reverse]

theorem pyStrip_replicate_a (n : Nat) : pyStrip (List.replicate n 'a') = List.replicate n 'a' :=
  pyStrip_id_of_no_space _ (fun c hc => by
    rw [List.eq_of_mem_replicate hc]; rfl)

theorem splitOnChar_of_not_mem (sep : Char) (l : Str) (h : sep ∉ l) :
    splitOnChar sep l = [l] := by
  induction l with
  | nil => rfl
  | cons c cs ih =>
    have hcs : sep ∉ cs := fun hm => h (List.mem_cons_of_mem c hm)
    have hc : c ≠ sep := fun hc => h (hc ▸ List.mem_cons_self c cs)
    simp [splitOnChar, hc, ih hcs]

theorem splitOnChar_append (sep : Char) (xs ys : Str) (h : sep ∉ xs) :
    splitOnChar sep (xs ++ sep :: ys) = xs :: splitOnChar sep ys := by
  induction xs with
  | nil => simp [splitOnChar]
  | cons c cs ih =>
    have hcs : sep ∉ cs := fun hm => h (List.mem_cons_of_mem c hm)
    have hc : c ≠ sep := fun hc => h (hc ▸ List.mem_cons_self c cs)
    have hne : splitOnChar sep (cs ++ sep :: ys) = cs :: splitOnChar sep ys := ih hcs
    simp [splitOnChar, hc, hne]

theorem takeLast_of_le (n : Nat) (l : List α) (h : l.length ≤ n) : takeLast n l = l := by
  unfold takeLast
  rw [Nat.sub_eq_zero_of_le h, List.drop_zero]

theorem takeLast_replicate_of_le (n m : Nat) (a : α) (h : n ≤ m) :
    takeLast n (List.replicate m a) = List.replicate n a := by
  unfold takeLast
  rw [List.length_replicate, List.drop_replicate]
  congr 1
  omega

theorem joinNl_cons_ne (x : Str) (M : List Str) (h : M ≠ []) :
    joinNl (x :: M) = x ++ '\n' :: joinNl M := by
  cases M with
  | nil => exact absurd rfl h
  | cons y ys => rfl

theorem joinNl_append (xs ys : List Str) (hx : xs ≠ []) (hy : ys ≠ []) :
    joinNl (xs ++ ys) = joinNl xs ++ '\n' :: joinNl ys := by
  induction xs with
  | nil => exact absurd rfl hx
  | cons x xs' ih =>
    cases xs' with
    | nil => simpa using joinNl_cons_ne x ys hy
    | cons x2 xs'' =>
      have ih' := ih (by simp)
      have h1 : joinNl ((x :: x2 :: xs'') ++ ys) = x ++ '\n' :: joinNl ((x2 :: xs'') ++ ys) := by
        rw [List.cons_append]
        exact joinNl_cons_ne _ _ (by simp)
      rw [h1, ih']
      rw [show joinNl (x :: x2 :: xs'') = x ++ '\n' :: joinNl (x2 :: xs'') from rfl]
      simp

theorem splitOnChar_joinNl (L : List Str) (h : ∀ x ∈ L, '\n' ∉ x) (hL : L ≠ []) :
    splitOnChar '\n' (joinNl L) = L := by
  induction L with
  | nil => exact absurd rfl hL
  | cons x xs ih =>
    cases xs with
    | nil => exact splitOnChar_of_not_mem _ _ (h x (List.mem_cons_self x []))
    | cons y ys =>
      rw [joinNl_cons_ne x (y :: ys) (by simp),
        splitOnChar_append _ _ _ (h x (List.mem_cons_self x _)),
        ih (fun z hz => h z (List.mem_cons_of_mem x hz)) (by simp)]

theorem sumCost_nil : sumCost [] = 0 := rfl

theorem sumCost_cons (x : Str) (xs : List Str) :
    sumCost (x :: xs) = x.length + 1 + sumCost xs := rfl

theorem sumCost_append (xs ys : List Str) :
    sumCost (xs ++ ys) = sumCost xs + sumCost ys := by
  induction xs with
  | nil => simp [sumCost]
  | cons x xs' ih => simp [sumCost_cons, ih]; omega

theorem sumCost_replicate (n : Nat) (x : Str) :
    sumCost (List.replicate n x) = n * (x.length + 1) := by
  induction n with
  | zero => simp [sumCost]
  | succ k ih => rw [List.replicate_succ, sumCost_cons, ih]; ring

theorem length_joinNl (L : List Str) (hL : L ≠ []) :
    (joinNl L).length + 1 = sumCost L := by
  induction L with
  | nil => exact absurd rfl hL
  | cons x xs ih =>
    cases xs with
    | nil => simp [joinNl, sumCost_cons, sumCost_nil]
    | cons y ys =>
      rw [joinNl_cons_ne x (y :: ys) (by simp), sumCost_cons]
      have := ih (by simp)
      simp only [List.length_append, List.length_cons]
      omega

theorem joinSep_nn_eq (ps : List Str) : joinSep (S "\n\n") ps = joinNl (sepEmpty ps) := by
  induction ps with
  | nil => rfl
  | cons x xs ih =>
    cases xs with
    | nil => rfl
    | cons y ys =>
      have hse : sepEmpty (y :: ys) ≠ [] := by
        cases ys <;> simp [sepEmpty]
      rw [joinSep, sepEmpty, joinNl_cons_ne _ _ (by simp),
        joinNl_cons_ne _ _ hse, ih,
        show S "\n\n" = ['\n', '\n'] from rfl]
      simp

theorem joinNl_flatten_core (inner zs : List Str) (h : inner ≠ []) :
    joinNl (joinNl inner :: zs) = joinNl (inner ++ zs) := by
  cases zs with
  | nil => simp [joinNl]
  | cons z zs' =>
    rw [joinNl_cons_ne _ _ (by simp), joinNl_append inner (z :: zs') h (by simp)]

theorem joinNl_flatten (xs inner zs : List Str) (h : inner ≠ []) :
    joinNl (xs ++ joinNl inner :: zs) = joinNl (xs ++ (inner ++ zs)) := by
  induction xs with
  | nil => simpa using joinNl_flatten_core inner zs h
  | cons x xs' ih =>
    have h2 : xs' ++ joinNl inner :: zs ≠ [] := by simp
    have h3 : xs' ++ (inner ++ zs) ≠ [] := by
      cases inner with
      | nil => exact absurd rfl h
      | cons i is => simp
    simp only [List.cons_append]
    rw [joinNl_cons_ne _ _ h2, joinNl_cons_ne _ _ h3, ih]

theorem filterMap_replicate_some {β : Type} (f : Str → Option β) (x : Str) (y : β)
    (hf : f x = some y) (n : Nat) :
    List.filterMap f (List.replicate n x) = List.replicate n y := by
  induction n with
  | zero => rfl
  | succ k ih => rw [List.replicate_succ, List.filterMap_cons, hf, ih, List.replicate_succ]

end SapCoach

namespace SapCoach

theorem truncGo_append (xs ys acc : List Str) (cur : Nat)
    (h : cur + sumCost xs ≤ maxContextLength) :
    truncGo (xs ++ ys) acc cur = truncGo ys (xs.reverse ++ acc) (cur + sumCost xs) := by
  induction xs generalizing acc cur with
  | nil => simp [sumCost]
  | cons x xs' ih =>
    have hs : cur + sumCost (x :: xs') = cur + (x.length + 1) + sumCost xs' := by
      rw [sumCost_cons]; omega
    have hx : cur + x.length + 1 ≤ maxContextLength := by
      rw [sumCost_cons] at h; omega
    have hrest : (cur + x.length + 1) + sumCost xs' ≤ maxContextLength := by
      rw [sumCost_cons] at h; omega
    simp only [List.cons_append, truncGo, if_pos hx, List.append_eq]
    rw [ih (x :: acc) (cur + x.length + 1) hrest, hs,
      show cur + List.length x + 1 + sumCost xs' = cur + (List.length x + 1) + sumCost xs' by omega]
    simp [List.reverse_cons, List.append_assoc]

theorem truncGo_replicate_stop (x : Str) (ys acc : List Str) (cur n k : Nat)
    (hk : k < n)
    (hfit : cur + k * (x.length + 1) ≤ maxContextLength)
    (hbreak : maxContextLength < cur + (k + 1) * (x.length + 1)) :
    truncGo (List.replicate n x ++ ys) acc cur = List.replicate k x ++ acc := by
  induction k generalizing n acc cur with
  | zero =>
    cases n with
    | zero => omega
    | succ m =>
      rw [Nat.succ_mul, Nat.zero_mul] at hbreak
      rw [List.replicate_succ]
      simp only [List.cons_append, truncGo]
      rw [if_neg (by omega)]
      simp
  | succ j ih =>
    cases n with
    | zero => omega
    | succ m =>
      simp only [Nat.succ_mul] at hfit hbreak
      have hx : cur + x.length + 1 ≤ maxContextLength := by omega
      rw [List.replicate_succ]
      simp only [List.cons_append, truncGo, if_pos hx, List.append_eq]
      rw [ih (x :: acc) (cur + x.length + 1) m (by omega) (by omega)
        (by simp only [Nat.succ_mul]; omega)]
      rw [show List.replicate (j + 1) x = List.replicate j x ++ [x] from List.replicate_succ' j x]
      simp

theorem importantPatterns_replicate_a (n : Nat) :
    (importantPatterns.any fun p => isSubstr p (List.replicate n 'a')) = false := by
  have hk : ('K' : Char) ∉ List.replicate n 'a' := fun hm =>
    absurd (List.eq_of_mem_replicate hm) (by decide)
  have hu : ('U' : Char) ∉ List.replicate n 'a' := fun hm =>
    absurd (List.eq_of_mem_replicate hm) (by decide)
  have hr : ('R' : Char) ∉ List.replicate n 'a' := fun hm =>
    absurd (List.eq_of_mem_replicate hm) (by decide)
  have ht : ('T' : Char) ∉ List.replicate n 'a' := fun hm =>
    absurd (List.eq_of_mem_replicate hm) (by decide)
  have e1 : isSubstr (S "KEY_FINDINGS") (List.replicate n 'a') = false := by
    rw [show S "KEY_FINDINGS" = 'K' :: S "EY_FINDINGS" from rfl]
    exact isSubstr_not_mem_head _ _ _ hk
  have e2 : isSubstr (S "USER_PREFERENCES") (List.replicate n 'a') = false := by
    rw [show S "USER_PREFERENCES" = 'U' :: S "SER_PREFERENCES" from rfl]
    exact isSubstr_not_mem_head _ _ _ hu
  have e3 : isSubstr (S "RESEARCHED_TOPICS") (List.replicate n 'a') = false := by
    rw [show S "RESEARCHED_TOPICS" = 'R' :: S "ESEARCHED_TOPICS" from rfl]
    exact isSubstr_not_mem_head _ _ _ hr
  have e4 : isSubstr (S "TARGET_ROLE") (List.replicate n 'a') = false := by
    rw [show S "TARGET_ROLE" = 'T' :: S "ARGET_ROLE" from rfl]
    exact isSubstr_not_mem_head _ _ _ ht
  simp [importantPatterns, e1, e2, e3, e4]

theorem newline_not_mem_replicate_a (n : Nat) : ('\n' : Char) ∉ List.replicate n 'a' :=
  fun hm => absurd (List.eq_of_mem_replicate hm) (by decide)

theorem replicate_ne_nil_of_pos {α : Type} (n : Nat) (x : α) (h : 0 < n) :
    List.replicate n x ≠ [] := by
  intro he
  have hl := congrArg List.length he
  rw [List.length_replicate, List.length_nil] at hl
  omega

theorem replicate_a_ne_nil (n : Nat) (h : 0 < n) : List.replicate n 'a' ≠ [] :=
  replicate_ne_nil_of_pos n 'a' h


end SapCoach

namespace SapCoach

theorem filter_patterns_nil (xs : List Str)
    (h : ∀ x ∈ xs, (importantPatterns.any fun p => isSubstr p x) = false) :
    (xs.filter fun l => importantPatterns.any fun p => isSubstr p l) = [] := by
  induction xs with
  | nil => rfl
  | cons x xs' ih =>
    rw [List.filter_cons, if_neg (by simp [h x (List.mem_cons_self x xs')]),
      ih (fun z hz => h z (List.mem_cons_of_mem x hz))]

theorem dedupe_single (x : Str) (hx : pyStrip x ≠ []) : dedupeRecent [x] = [x] := by
  unfold dedupeRecent
  rw [show ([x] : List Str).reverse = [x] from by simp, dedupeGo,
    if_pos ⟨hx, List.not_mem_nil x⟩, dedupeGo]

theorem iar_single (x : Str)
    (h : (importantPatterns.any fun p => isSubstr p x) = false) :
    importantAndRecent [x] = [x] := by
  unfold importantAndRecent
  rw [filter_patterns_nil [x] (by intro z hz; rw [List.mem_singleton.mp hz]; exact h),
    takeLast_of_le _ _ (by simp), List.nil_append]

theorem compressContent_replicate_big (n cnt : Nat) (h : maxMemorySize < n) :
    compressContent (List.replicate n 'a') cnt =
      ('\n' :: markerBody (cnt + 1) ++ '\n' :: List.replicate maxMemorySize 'a', cnt + 1) := by
  have hpos : 0 < n := by unfold maxMemorySize at h; omega
  have hcj : compressedJoin (List.replicate n 'a') = List.replicate n 'a' := by
    unfold compressedJoin
    rw [splitOnChar_of_not_mem _ _ (newline_not_mem_replicate_a n),
      iar_single _ (importantPatterns_replicate_a n),
      dedupe_single _ (by rw [pyStrip_replicate_a]; exact replicate_a_ne_nil n hpos)]
    rfl
  have hres : compressResult (List.replicate n 'a') = List.replicate maxMemorySize 'a' := by
    unfold compressResult
    rw [hcj, if_pos (by rw [List.length_replicate]; exact h),
      takeLast_replicate_of_le _ _ _ (by omega)]
  unfold compressContent
  rw [if_neg (by rw [List.length_replicate]; omega), hres]

end SapCoach

namespace SapCoach

end SapCoach

namespace SapCoach

theorem mem_dropWhile_of_not (q : Char → Bool) (l : Str) (c : Char)
    (hc : c ∈ l) (hq : q c = false) : c ∈ l.dropWhile q := by
  induction l with
  | nil => cases hc
  | cons d ds ih =>
    by_cases hd : q d = true
    · rw [List.dropWhile_cons_of_pos hd]
      rcases List.mem_cons.mp hc with h1 | h2
      · rw [h1] at hq
        rw [hq] at hd
        cases hd
      · exact ih h2
    · rw [List.dropWhile_cons_of_neg hd]
      exact hc

theorem pyStrip_ne_nil_of_mem (l : Str) (c : Char) (hc : c ∈ l)
    (hq : isPySpaceB c = false) : pyStrip l ≠ [] := by
  intro he
  unfold pyStrip at he
  have h1 : c ∈ l.dropWhile isPySpaceB := mem_dropWhile_of_not _ _ _ hc hq
  have h2 : c ∈ (l.dropWhile isPySpaceB).reverse := List.mem_reverse.mpr h1
  have h3 : c ∈ (l.dropWhile isPySpaceB).reverse.dropWhile isPySpaceB :=
    mem_dropWhile_of_not _ _ _ h2 hq
  have h4 : c ∈ ((l.dropWhile isPySpaceB).reverse.dropWhile isPySpaceB).reverse :=
    List.mem_reverse.mpr h3
  rw [he] at h4
  cases h4

theorem splitOnChar_joinNl_append (L : List Str) (rest : Str)
    (h : ∀ x ∈ L, '\n' ∉ x) (hL : L ≠ []) :
    splitOnChar '\n' (joinNl L ++ '\n' :: rest) = L ++ splitOnChar '\n' rest := by
  induction L with
  | nil => exact absurd rfl hL
  | cons x xs ih =>
    cases xs with
    | nil =>
      rw [show joinNl [x] = x from rfl,
        splitOnChar_append _ _ _ (h x (List.mem_cons_self x []))]
      rfl
    | cons y ys =>
      rw [joinNl_cons_ne x (y :: ys) (by simp), List.append_assoc,
        show ('\n' :: joinNl (y :: ys)) ++ '\n' :: rest = '\n' :: (joinNl (y :: ys) ++ '\n' :: rest)
          from rfl,
        splitOnChar_append _ _ _ (h x (List.mem_cons_self x _)),
        ih (fun z hz => h z (List.mem_cons_of_mem x hz)) (by simp)]
      rfl

theorem rep498_length : rep498.length = 498 := by
  unfold rep498
  exact List.length_replicate _ _

theorem memX_lines : splitOnChar '\n' memX = List.replicate 20 rep498 := by
  unfold memX
  exact splitOnChar_joinNl _
    (fun x hx => by
      rw [List.eq_of_mem_replicate hx]
      unfold rep498
      exact newline_not_mem_replicate_a _)
    (by simp)

theorem memX_length : memX.length = 9979 := by
  have h := length_joinNl (List.replicate 20 rep498) (by simp)
  rw [sumCost_replicate, rep498_length] at h
  unfold memX
  omega

theorem pyStrip_memX_ne_nil : pyStrip memX ≠ [] := by
  apply pyStrip_ne_nil_of_mem _ 'a'
  · unfold memX
    rw [show (20 : Nat) = 19 + 1 from rfl, List.replicate_succ,
      joinNl_cons_ne _ _ (by simp)]
    apply List.mem_append.mpr
    left
    unfold rep498
    exact List.mem_replicate.mpr ⟨by omega, rfl⟩
  · rfl

theorem agentSection_memX (name : Str) :
    agentSection name memX = [pyUpper name ++ S "_MEMORY:", memX, []] := by
  have h1 : pyStrip rep498 = rep498 := by
    unfold rep498
    exact pyStrip_replicate_a _
  have hne : pyStrip rep498 ≠ [] := by
    rw [h1]
    unfold rep498
    exact replicate_a_ne_nil _ (by omega)
  have h2 : rep498.length < 500 := by rw [rep498_length]; omega
  have hf : (fun l => if pyStrip l ≠ [] ∧ l.length < 500 then some (pyStrip l) else none) rep498 =
      some rep498 := by
    show (if pyStrip rep498 ≠ [] ∧ rep498.length < 500 then some (pyStrip rep498) else none) =
      some rep498
    rw [if_pos ⟨hne, h2⟩, h1]
  have hk : keyLinesOf memX = List.replicate 20 rep498 := by
    unfold keyLinesOf
    rw [memX_lines, takeLast_of_le _ _ (Nat.le_of_eq (List.length_replicate _ _)),
      filterMap_replicate_some
        (fun l => if pyStrip l ≠ [] ∧ l.length < 500 then some (pyStrip l) else none)
        rep498 rep498 hf]
  unfold agentSection
  rw [hk, if_pos (replicate_ne_nil_of_pos 20 rep498 (by omega)),
    show joinNl (List.replicate 20 rep498) = memX from rfl]
  rfl

end SapCoach

namespace SapCoach

theorem splitOnChar_ne_nil (sep : Char) (l : Str) : splitOnChar sep l ≠ [] := by
  cases l with
  | nil => simp [splitOnChar]
  | cons c cs =>
    by_cases hc : c = sep
    · simp [splitOnChar, hc]
    · simp only [splitOnChar, if_neg hc]
      cases splitOnChar sep cs <;> simp

theorem splitOnChar_sep_append (a b : Str) :
    splitOnChar '\n' (a ++ '\n' :: b) = splitOnChar '\n' a ++ splitOnChar '\n' b := by
  induction a with
  | nil => simp [splitOnChar]
  | cons c cs ih =>
    by_cases hc : c = '\n'
    · subst hc
      simp [splitOnChar, ih]
    · rcases hcs : splitOnChar '\n' cs with _ | ⟨p0, r0⟩
      · exact absurd hcs (splitOnChar_ne_nil '\n' cs)
      · simp [splitOnChar, hc, ih, hcs]

theorem splitOnChar_joinNl_flat (L : List Str) (hL : L ≠ []) :
    splitOnChar '\n' (joinNl L) = (L.map (splitOnChar '\n')).flatten := by
  induction L with
  | nil => exact absurd rfl hL
  | cons x xs ih =>
    cases xs with
    | nil => simp [joinNl]
    | cons y ys =>
      rw [joinNl_cons_ne x (y :: ys) (by simp), splitOnChar_sep_append,
        ih (by simp), List.map_cons, List.flatten_cons]
      simp [List.append_assoc]

theorem buildParts_nil_hist_nil : buildParts [] [] = [] := by
  unfold buildParts
  rw [if_neg (fun h => h rfl)]
  rfl

theorem buildParts_cons_kept (nm mem : Str) (rest : List (Str × Str))
    (h : pyStrip mem ≠ []) :
    buildParts ((nm, mem) :: rest) [] = agentSection nm mem ++ buildParts rest [] := by
  unfold buildParts
  rw [if_neg (fun hh => hh rfl)]
  simp only [List.map_cons, List.flatten_cons, List.nil_append]
  rw [if_pos h]

theorem buildParts_c5 :
    buildParts c5Mems [] =
      [S "A_MEMORY:", memX, [], S "B_MEMORY:", memX, [], S "C_MEMORY:", memX, []] := by
  rw [show c5Mems = [(S "A", memX), (S "B", memX), (S "C", memX)] from rfl,
    buildParts_cons_kept _ _ _ pyStrip_memX_ne_nil,
    buildParts_cons_kept _ _ _ pyStrip_memX_ne_nil,
    buildParts_cons_kept _ _ _ pyStrip_memX_ne_nil,
    buildParts_nil_hist_nil,
    agentSection_memX, agentSection_memX, agentSection_memX,
    show pyUpper (S "A") ++ S "_MEMORY:" = S "A_MEMORY:" from rfl,
    show pyUpper (S "B") ++ S "_MEMORY:" = S "B_MEMORY:" from rfl,
    show pyUpper (S "C") ++ S "_MEMORY:" = S "C_MEMORY:" from rfl]
  rfl

end SapCoach

namespace SapCoach

theorem sA_len : (S "A_MEMORY:").length = 9 := rfl

theorem sB_len : (S "B_MEMORY:").length = 9 := rfl

theorem sC_len : (S "C_MEMORY:").length = 9 := rfl

theorem c5_ctx_eq : joinSep (S "\n\n") (buildParts c5Mems []) =
    joinNl [S "A_MEMORY:", [], memX, [], [], [], S "B_MEMORY:", [], memX, [], [], [],
      S "C_MEMORY:", [], memX, [], []] := by
  rw [buildParts_c5, joinSep_nn_eq,
    show sepEmpty [S "A_MEMORY:", memX, [], S "B_MEMORY:", memX, [], S "C_MEMORY:", memX, []] =
      [S "A_MEMORY:", [], memX, [], [], [], S "B_MEMORY:", [], memX, [], [], [],
       S "C_MEMORY:", [], memX, [], []] from rfl]

theorem c5_ctx_length : (joinSep (S "\n\n") (buildParts c5Mems [])).length = 29980 := by
  have hsum : sumCost [S "A_MEMORY:", [], memX, [], [], [], S "B_MEMORY:", [], memX, [], [], [],
      S "C_MEMORY:", [], memX, [], []] = 29981 := by
    simp only [sumCost_cons, sumCost_nil, memX_length, List.length_nil, sA_len, sB_len, sC_len]
  have h := length_joinNl [S "A_MEMORY:", [], memX, [], [], [], S "B_MEMORY:", [], memX, [], [], [],
      S "C_MEMORY:", [], memX, [], []] (by simp)
  rw [hsum] at h
  rw [c5_ctx_eq]
  omega

theorem c5_lines : splitOnChar '\n' (joinSep (S "\n\n") (buildParts c5Mems [])) =
    S "A_MEMORY:" :: [] :: (List.replicate 20 rep498 ++
      [] :: [] :: [] :: S "B_MEMORY:" :: [] :: (List.replicate 20 rep498 ++
        [] :: [] :: [] :: S "C_MEMORY:" :: [] :: (List.replicate 20 rep498 ++ [[], []]))) := by
  rw [c5_ctx_eq, splitOnChar_joinNl_flat _ (by simp)]
  simp only [List.map_cons, List.map_nil, memX_lines,
    show splitOnChar '\n' (S "A_MEMORY:") = [S "A_MEMORY:"] from
      splitOnChar_of_not_mem _ _ (by decide),
    show splitOnChar '\n' (S "B_MEMORY:") = [S "B_MEMORY:"] from
      splitOnChar_of_not_mem _ _ (by decide),
    show splitOnChar '\n' (S "C_MEMORY:") = [S "C_MEMORY:"] from
      splitOnChar_of_not_mem _ _ (by decide),
    show splitOnChar '\n' ([] : Str) = [[]] from rfl,
    List.flatten_cons, List.flatten_nil, List.cons_append, List.nil_append,
    List.append_nil]

theorem c5_kept : truncGo (S "A_MEMORY:" :: [] :: (List.replicate 20 rep498 ++
      [] :: [] :: [] :: S "B_MEMORY:" :: [] :: (List.replicate 20 rep498 ++
        [] :: [] :: [] :: S "C_MEMORY:" :: [] :: (List.replicate 20 rep498 ++ [[], []])))).reverse
      [] 0 =
    List.replicate 8 rep498 ++
      ([] :: [] :: [] :: S "B_MEMORY:" :: [] :: (List.replicate 20 rep498 ++
        [] :: [] :: [] :: S "C_MEMORY:" :: [] :: (List.replicate 20 rep498 ++ [[], []]))) := by
  have hrev : (S "A_MEMORY:" :: [] :: (List.replicate 20 rep498 ++
      [] :: [] :: [] :: S "B_MEMORY:" :: [] :: (List.replicate 20 rep498 ++
        [] :: [] :: [] :: S "C_MEMORY:" :: [] :: (List.replicate 20 rep498 ++ [[], []])))).reverse =
      ([] :: [] :: (List.replicate 20 rep498 ++
        [] :: S "C_MEMORY:" :: [] :: [] :: [] :: (List.replicate 20 rep498 ++
          [[], S "B_MEMORY:", [], [], []]))) ++
      (List.replicate 20 rep498 ++ [[], S "A_MEMORY:"]) := by
    simp only [List.reverse_cons, List.reverse_append, List.reverse_replicate,
      List.reverse_nil, List.append_assoc, List.nil_append, List.cons_append,
      List.append_nil]
  have hcost : sumCost ([] :: [] :: (List.replicate 20 rep498 ++
      [] :: S "C_MEMORY:" :: [] :: [] :: [] :: (List.replicate 20 rep498 ++
        [[], S "B_MEMORY:", [], [], []]))) = 19990 := by
    simp only [sumCost_cons, sumCost_nil, sumCost_append, sumCost_replicate,
      rep498_length, List.length_nil, sB_len, sC_len]
  rw [hrev, truncGo_append _ _ _ _ (by rw [hcost]; unfold maxContextLength; omega), hcost]
  rw [truncGo_replicate_stop rep498 _ _ _ _ 8 (by omega)
    (by rw [rep498_length]; unfold maxContextLength; omega)
    (by rw [rep498_length]; unfold maxContextLength; omega)]
  simp only [List.reverse_cons, List.reverse_append, List.reverse_replicate,
    List.reverse_nil, List.append_assoc, List.nil_append, List.cons_append,
    List.append_nil]

end SapCoach

namespace SapCoach

theorem noticeStr_length : noticeStr.length = 39 := rfl

theorem c5_truncKept : truncKept (joinSep (S "\n\n") (buildParts c5Mems [])) =
    joinNl (List.replicate 8 rep498 ++
      ([] :: [] :: [] :: S "B_MEMORY:" :: [] :: (List.replicate 20 rep498 ++
        [] :: [] :: [] :: S "C_MEMORY:" :: [] :: (List.replicate 20 rep498 ++ [[], []])))) := by
  unfold truncKept
  rw [c5_lines, c5_kept]

theorem c5_truncKept_length :
    (truncKept (joinSep (S "\n\n") (buildParts c5Mems []))).length = 23981 := by
  have hsc : sumCost (List.replicate 8 rep498 ++
      ([] :: [] :: [] :: S "B_MEMORY:" :: [] :: (List.replicate 20 rep498 ++
        [] :: [] :: [] :: S "C_MEMORY:" :: [] :: (List.replicate 20 rep498 ++ [[], []])))) =
      23982 := by
    simp only [sumCost_append, sumCost_cons, sumCost_nil, sumCost_replicate,
      rep498_length, List.length_nil, sB_len, sC_len]
  have h := length_joinNl (List.replicate 8 rep498 ++
      ([] :: [] :: [] :: S "B_MEMORY:" :: [] :: (List.replicate 20 rep498 ++
        [] :: [] :: [] :: S "C_MEMORY:" :: [] :: (List.replicate 20 rep498 ++ [[], []]))))
      (by simp)
  rw [hsc] at h
  rw [c5_truncKept]
  omega

theorem c5_final_string : buildMemoryContextString c5Mems [] =
    noticeStr ++ truncKept (joinSep (S "\n\n") (buildParts c5Mems [])) := by
  unfold buildMemoryContextString
  rw [if_pos (by rw [c5_ctx_length]; unfold maxContextLength; omega)]
  unfold truncateContext
  rw [if_neg (by rw [c5_ctx_length]; unfold maxContextLength; omega),
    if_pos (by rw [c5_truncKept_length, c5_ctx_length]; omega)]

end SapCoach

namespace SapCoach

theorem extractPlanFallback_pos (text : Str) (agents : List AgentInfo) :
    1 ≤ (extractPlanFallback text agents).length := by
  unfold extractPlanFallback
  split
  · rename_i h
    rw [mkTasks, List.length_map]
    exact List.length_pos.mpr h
  · split
    · rename_i h
      rw [mkTasks, List.length_map]
      exact List.length_pos.mpr h
    · split
      · rename_i h
        rw [mkTasks, List.length_map]
        exact List.length_pos.mpr h
      · split
        · simp
        · rename_i h
          exact List.length_pos.mpr h

theorem extractPlan_pos (text : Str) (agents : List AgentInfo) :
    1 ≤ (extractPlan text agents).length := by
  unfold extractPlan
  cases hp : planSectionContent text with
  | none => exact extractPlanFallback_pos text agents
  | some raw =>
    show 1 ≤ (if numberedBoldMatches (pyStrip raw) ≠ []
      then mkTasks (numberedBoldMatches (pyStrip raw))
      else if simpleNumberedMatches (pyStrip raw) ≠ []
      then mkTasks (simpleNumberedMatches (pyStrip raw))
      else extractPlanFallback text agents).length
    split
    · rename_i h
      rw [mkTasks, List.length_map]
      exact List.length_pos.mpr h
    · split
      · rename_i h
        rw [mkTasks, List.length_map]
        exact List.length_pos.mpr h
      · exact extractPlanFallback_pos text agents

theorem extractPlanFallback_minimal (text : Str) (agents : List AgentInfo)
    (h1 : numberedBoldMatches text = []) (h2 : simpleNumberedMatches text = [])
    (h3 : bulletMatches text = []) (h4 : freeTextTasks text (rosterNames agents) = []) :
    extractPlanFallback text agents = [minimalFallback (rosterNames agents)] := by
  unfold extractPlanFallback
  rw [if_neg (fun hc => hc h1), if_neg (fun hc => hc h2), if_neg (fun hc => hc h3),
    if_pos h4]

theorem rosterNames_cons (a : AgentInfo) (rest : List AgentInfo) :
    rosterNames (a :: rest) = a.name :: rest.map AgentInfo.name := by
  unfold rosterNames
  rw [if_pos (by simp), List.map_cons]

theorem ftGo_names_sublist (text : Str) (allNames : List Str) (ns : List Str) :
    ((ftGo text allNames ns).map Subtask.agent_name).Sublist ns := by
  induction ns with
  | nil => simp [ftGo]
  | cons n rest ih =>
    rw [show ftGo text allNames (n :: rest) =
        ftChunk n (ftScan allNames n text) ++ ftGo text allNames rest from rfl,
      List.map_append]
    cases hscan : ftScan allNames n text with
    | none =>
      rw [ftChunk]
      simp only [List.nil_append, List.map_nil]
      exact ih.cons n
    | some cap =>
      rw [ftChunk]
      by_cases hc : pyStrip cap ≠ []
      · rw [if_pos hc]
        simp only [List.map_cons, List.map_nil, List.cons_append, List.nil_append]
        exact ih.cons₂ n
      · rw [if_neg hc]
        simp only [List.nil_append, List.map_nil]
        exact ih.cons n

theorem ftScan_mention (allNames : List Str) (n : Str) (text : Str) (cap : Str)
    (h : ftScan allNames n text = some cap) : isSubstrCI n text = true := by
  induction text with
  | nil => exact absurd h (by rw [ftScan]; exact Option.noConfusion)
  | cons c cs ih =>
    rw [ftScan] at h
    split at h
    · rename_i hg
      have hlw : leadsWithCI n (c :: cs) = true := ((Bool.and_eq_true _ _).mp hg).1
      rw [isSubstrCI, hlw, Bool.true_or]
    · rw [isSubstrCI, ih h, Bool.or_true]

theorem ftGo_mention (text : Str) (allNames : List Str) (ns : List Str) :
    ∀ s ∈ ftGo text allNames ns, isSubstrCI s.agent_name text = true := by
  induction ns with
  | nil => intro s hs; cases hs
  | cons n rest ih =>
    intro s hs
    rw [show ftGo text allNames (n :: rest) =
        ftChunk n (ftScan allNames n text) ++ ftGo text allNames rest from rfl] at hs
    rcases List.mem_append.mp hs with hleft | hright
    · cases hscan : ftScan allNames n text with
      | none => rw [hscan, ftChunk] at hleft; cases hleft
      | some cap =>
        rw [hscan, ftChunk] at hleft
        by_cases hc : pyStrip cap ≠ []
        · rw [if_pos hc] at hleft
          have hs' : s = ⟨n, pyStrip cap, false⟩ := List.mem_singleton.mp hleft
          rw [hs']
          exact ftScan_mention allNames n text cap hscan
        · rw [if_neg hc] at hleft
          cases hleft
    · exact ih s hright

end SapCoach

namespace SapCoach

theorem dedupeGo_append (xs ys acc seen : List Str) :
    dedupeGo (xs ++ ys) acc seen = dedupeGo ys (dedupeGo xs acc seen) (dgSeen xs seen) := by
  induction xs generalizing acc seen with
  | nil => rfl
  | cons l rest ih =>
    rw [List.cons_append, dedupeGo, dedupeGo, dgSeen]
    by_cases hc : pyStrip l ≠ [] ∧ l ∉ seen
    · rw [if_pos hc, if_pos hc, if_pos hc]
      exact ih (l :: acc) (l :: seen)
    · rw [if_neg hc, if_neg hc, if_neg hc]
      exact ih acc seen

theorem dedupeGo_fresh : ∀ (xs acc seen : List Str),
    (∀ x ∈ xs, pyStrip x ≠ []) → xs.Nodup → (∀ x ∈ xs, x ∉ seen) →
    dedupeGo xs acc seen = xs.reverse ++ acc := by
  intro xs
  induction xs with
  | nil => intro acc seen _ _ _; rfl
  | cons l rest ih =>
    intro acc seen hnb hnd hdis
    rw [dedupeGo,
      if_pos ⟨hnb l (List.mem_cons_self l rest), hdis l (List.mem_cons_self l rest)⟩,
      ih (l :: acc) (l :: seen) (fun x hx => hnb x (List.mem_cons_of_mem l hx))
        (List.Nodup.of_cons hnd)
        (fun x hx hm => by
          rcases List.mem_cons.mp hm with h1 | h2
          · exact (List.nodup_cons.mp hnd).1 (h1 ▸ hx)
          · exact hdis x (List.mem_cons_of_mem l hx) h2),
      List.reverse_cons, List.append_assoc]
    rfl

theorem dgSeen_fresh : ∀ (xs seen : List Str),
    (∀ x ∈ xs, pyStrip x ≠ []) → xs.Nodup → (∀ x ∈ xs, x ∉ seen) →
    dgSeen xs seen = xs.reverse ++ seen := by
  intro xs
  induction xs with
  | nil => intro seen _ _ _; rfl
  | cons l rest ih =>
    intro seen hnb hnd hdis
    rw [dgSeen,
      if_pos ⟨hnb l (List.mem_cons_self l rest), hdis l (List.mem_cons_self l rest)⟩,
      ih (l :: seen) (fun x hx => hnb x (List.mem_cons_of_mem l hx))
        (List.Nodup.of_cons hnd)
        (fun x hx hm => by
          rcases List.mem_cons.mp hm with h1 | h2
          · exact (List.nodup_cons.mp hnd).1 (h1 ▸ hx)
          · exact hdis x (List.mem_cons_of_mem l hx) h2),
      List.reverse_cons, List.append_assoc]
    rfl

theorem dedupeGo_stale : ∀ (xs acc seen : List Str),
    (∀ x ∈ xs, x ∈ seen) → dedupeGo xs acc seen = acc := by
  intro xs
  induction xs with
  | nil => intro acc seen _; rfl
  | cons l rest ih =>
    intro acc seen h
    rw [dedupeGo, if_neg (fun hc => hc.2 (h l (List.mem_cons_self l rest)))]
    exact ih acc seen (fun x hx => h x (List.mem_cons_of_mem l hx))

theorem dgSeen_stale : ∀ (xs seen : List Str),
    (∀ x ∈ xs, x ∈ seen) → dgSeen xs seen = seen := by
  intro xs
  induction xs with
  | nil => intro seen _; rfl
  | cons l rest ih =>
    intro seen h
    rw [dgSeen, if_neg (fun hc => hc.2 (h l (List.mem_cons_self l rest)))]
    exact ih seen (fun x hx => h x (List.mem_cons_of_mem l hx))

theorem dedupeRecent_append_drop (X : List Str) (m : Nat)
    (hnb : ∀ x ∈ X, pyStrip x ≠ []) (hnd : X.Nodup) :
    dedupeRecent (X ++ X.drop m) = X := by
  have hnbD : ∀ x ∈ (X.drop m).reverse, pyStrip x ≠ [] := fun x hx =>
    hnb x (List.mem_of_mem_drop (List.mem_reverse.mp hx))
  have hndD : (X.drop m).reverse.Nodup :=
    List.nodup_reverse.mpr (List.Nodup.sublist (List.drop_sublist ..) hnd)
  have hnbT : ∀ x ∈ (X.take m).reverse, pyStrip x ≠ [] := fun x hx =>
    hnb x (List.mem_of_mem_take (List.mem_reverse.mp hx))
  have hndT : (X.take m).reverse.Nodup :=
    List.nodup_reverse.mpr (List.Nodup.sublist (List.take_sublist ..) hnd)
  have hrev : X.reverse = (X.drop m).reverse ++ (X.take m).reverse := by
    rw [← List.reverse_append, List.take_append_drop]
  unfold dedupeRecent
  rw [List.reverse_append, dedupeGo_append,
    dedupeGo_fresh _ [] [] hnbD hndD (fun x _ hm => List.not_mem_nil x hm),
    dgSeen_fresh _ [] hnbD hndD (fun x _ hm => List.not_mem_nil x hm),
    List.reverse_reverse, List.append_nil, hrev, dedupeGo_append,
    dedupeGo_stale _ _ _ (fun x hx => List.mem_reverse.mp hx),
    dgSeen_stale _ _ (fun x hx => List.mem_reverse.mp hx),
    dedupeGo_fresh _ _ _ hnbT hndT
      (fun x hx hm =>
        List.disjoint_take_drop hnd (Nat.le_refl m) (List.mem_reverse.mp hx) hm),
    List.reverse_reverse, List.take_append_drop]

end SapCoach

namespace SapCoach

theorem keyLine_length (n : Nat) : (keyLine n).length = 12 + n := by
  rw [keyLine, List.length_append, List.length_replicate,
    show (S "KEY_FINDINGS").length = 12 from rfl]

theorem c3Head_length : c3Head.length = 445 := by
  rw [c3Head, List.length_append, List.length_replicate,
    show (S "KEY_FINDINGS").length = 12 from rfl]

theorem c3Tail_length : c3Tail.length = 50 := by
  rw [c3Tail, List.length_map, List.length_range]

theorem c3Tail_ne_nil : c3Tail ≠ [] := by
  intro he
  have := congrArg List.length he
  rw [c3Tail_length] at this
  exact absurd this (by decide)

theorem newline_not_mem_keyLine (n : Nat) : ('\n' : Char) ∉ keyLine n := by
  rw [keyLine]
  intro hm
  rcases List.mem_append.mp hm with h1 | h2
  · exact absurd h1 (by decide)
  · exact absurd (List.eq_of_mem_replicate h2) (by decide)

theorem b_not_mem_keyLine (n : Nat) : ('b' : Char) ∉ keyLine n := by
  rw [keyLine]
  intro hm
  rcases List.mem_append.mp hm with h1 | h2
  · exact absurd h1 (by decide)
  · exact absurd (List.eq_of_mem_replicate h2) (by decide)

theorem newline_not_mem_c3Head : ('\n' : Char) ∉ c3Head := by
  rw [c3Head]
  intro hm
  rcases List.mem_append.mp hm with h1 | h2
  · exact absurd h1 (by decide)
  · exact absurd (List.eq_of_mem_replicate h2) (by decide)

theorem pyStrip_keyLine_ne_nil (n : Nat) : pyStrip (keyLine n) ≠ [] :=
  pyStrip_ne_nil_of_mem _ 'K'
    (by rw [keyLine]; exact List.mem_append.mpr (Or.inl (by decide))) (by decide)

theorem pyStrip_c3Head_ne_nil : pyStrip c3Head ≠ [] :=
  pyStrip_ne_nil_of_mem _ 'K'
    (by rw [c3Head]; exact List.mem_append.mpr (Or.inl (by decide))) (by decide)

theorem patterns_keyLine (n : Nat) :
    (importantPatterns.any fun p => isSubstr p (keyLine n)) = true := by
  have h : isSubstr (S "KEY_FINDINGS") (keyLine n) = true := by
    rw [keyLine]
    exact isSubstr_sandwich [] (S "KEY_FINDINGS") (List.replicate n 'a')
  rw [importantPatterns]
  simp [h]

theorem patterns_c3Head :
    (importantPatterns.any fun p => isSubstr p c3Head) = true := by
  have h : isSubstr (S "KEY_FINDINGS") c3Head = true := by
    rw [c3Head]
    exact isSubstr_sandwich [] (S "KEY_FINDINGS") (List.replicate 433 'b')
  rw [importantPatterns]
  simp [h]

theorem c3Tail_nodup : c3Tail.Nodup := by
  rw [c3Tail]
  exact List.Nodup.map
    (fun a b h => by
      have hl := congrArg List.length h
      rw [keyLine_length, keyLine_length] at hl
      omega)
    (List.nodup_range 50)

theorem c3Head_not_mem_tail : c3Head ∉ c3Tail := by
  rw [c3Tail]
  intro hm
  obtain ⟨i, _, he⟩ := List.mem_map.mp hm
  have hl := congrArg List.length he
  rw [keyLine_length, c3Head_length] at hl
  omega

theorem c3Lines_nonblank : ∀ x ∈ c3Head :: c3Tail, pyStrip x ≠ [] := by
  intro x hx
  rcases List.mem_cons.mp hx with h1 | h2
  · rw [h1]; exact pyStrip_c3Head_ne_nil
  · obtain ⟨i, _, he⟩ := List.mem_map.mp (by rw [c3Tail] at h2; exact h2)
    rw [← he]; exact pyStrip_keyLine_ne_nil _

theorem c3Lines_nodup : (c3Head :: c3Tail).Nodup :=
  List.nodup_cons.mpr ⟨c3Head_not_mem_tail, c3Tail_nodup⟩

theorem sumCost_keyRange (n m : Nat) :
    sumCost ((List.range n).map fun i => keyLine (m + i)) =
      n * (13 + m) + n * (n - 1) / 2 := by
  induction n with
  | zero =>
    rw [show ((List.range 0).map fun i => keyLine (m + i)) = [] from rfl, sumCost_nil]
    omega
  | succ k ih =>
    rw [List.range_succ, List.map_append, sumCost_append, ih,
      show ((List.map fun i => keyLine (m + i)) [k] : List Str) = [keyLine (m + k)] from rfl,
      sumCost_cons, sumCost_nil, keyLine_length]
    have h1 : (k + 1) * (13 + m) = k * (13 + m) + (13 + m) := by ring
    have h2 : (k + 1) * ((k + 1) - 1) = k * (k - 1) + 2 * k := by
      cases k with
      | zero => rfl
      | succ j =>
        simp only [Nat.add_sub_cancel]
        ring
    rw [h1, h2]
    omega

theorem sumCost_c3Tail : sumCost c3Tail = 23575 := by
  rw [c3Tail, sumCost_keyRange]

theorem joinNl_c3Tail_length : (joinNl c3Tail).length = 23574 := by
  have h := length_joinNl c3Tail c3Tail_ne_nil
  rw [sumCost_c3Tail] at h
  omega

theorem c3Big_length : c3Big.length = 24020 := by
  have h := length_joinNl (c3Head :: c3Tail) (by simp)
  rw [sumCost_cons, sumCost_c3Tail, c3Head_length] at h
  rw [c3Big]
  omega

theorem mem_joinNl : ∀ (L : List Str) (c : Char), c ∈ joinNl L →
    c = '\n' ∨ ∃ l ∈ L, c ∈ l := by
  intro L
  induction L with
  | nil => intro c h; exact absurd h (List.not_mem_nil c)
  | cons x xs ih =>
    cases xs with
    | nil =>
      intro c h
      exact Or.inr ⟨x, List.mem_cons_self x [], h⟩
    | cons y ys =>
      intro c h
      rw [joinNl_cons_ne x (y :: ys) (by simp)] at h
      rcases List.mem_append.mp h with h1 | h2
      · exact Or.inr ⟨x, List.mem_cons_self _ _, h1⟩
      · rcases List.mem_cons.mp h2 with h3 | h4
        · exact Or.inl h3
        · rcases ih c h4 with h5 | ⟨l, hl, hc⟩
          · exact Or.inl h5
          · exact Or.inr ⟨l, List.mem_cons_of_mem x hl, hc⟩

theorem b_not_mem_joinNl_c3Tail : ('b' : Char) ∉ joinNl c3Tail := by
  intro hm
  rcases mem_joinNl c3Tail 'b' hm with h1 | ⟨l, hl, hc⟩
  · exact absurd h1 (by decide)
  · obtain ⟨i, _, he⟩ := List.mem_map.mp (by rw [c3Tail] at hl; exact hl)
    rw [← he] at hc
    exact b_not_mem_keyLine _ hc

end SapCoach

namespace SapCoach

theorem c3Big_split : splitOnChar '\n' c3Big = c3Head :: c3Tail := by
  rw [c3Big]
  apply splitOnChar_joinNl
  · intro x hx
    rcases List.mem_cons.mp hx with h1 | h2
    · rw [h1]; exact newline_not_mem_c3Head
    · obtain ⟨i, _, he⟩ := List.mem_map.mp (by rw [c3Tail] at h2; exact h2)
      rw [← he]; exact newline_not_mem_keyLine _
  · simp

theorem iar_c3Lines :
    importantAndRecent (c3Head :: c3Tail) = (c3Head :: c3Tail) ++ c3Tail := by
  unfold importantAndRecent
  have hfilter : ((c3Head :: c3Tail).filter fun l =>
      importantPatterns.any fun p => isSubstr p l) = c3Head :: c3Tail := by
    apply List.filter_eq_self.mpr
    intro a ha
    rcases List.mem_cons.mp ha with h1 | h2
    · rw [h1]; exact patterns_c3Head
    · obtain ⟨i, _, he⟩ := List.mem_map.mp (by rw [c3Tail] at h2; exact h2)
      rw [← he]; exact patterns_keyLine _
  have htake : takeLast 50 (c3Head :: c3Tail) = c3Tail := by
    unfold takeLast
    rw [List.length_cons, c3Tail_length]
    rfl
  rw [hfilter, htake]

theorem c3Big_cj : compressedJoin c3Big = c3Big := by
  unfold compressedJoin
  have hdd := dedupeRecent_append_drop (c3Head :: c3Tail) 1 c3Lines_nonblank c3Lines_nodup
  rw [show (c3Head :: c3Tail).drop 1 = c3Tail from rfl] at hdd
  rw [c3Big_split, iar_c3Lines, hdd]
  rfl

theorem c3Big_res :
    compressResult c3Big = List.replicate 425 'b' ++ '\n' :: joinNl c3Tail := by
  unfold compressResult
  rw [c3Big_cj, if_pos (by rw [c3Big_length]; unfold maxMemorySize; omega)]
  unfold takeLast
  rw [c3Big_length, show (24020 - maxMemorySize : Nat) = 20 from rfl,
    show c3Big = c3Head ++ '\n' :: joinNl c3Tail from by
      rw [c3Big, joinNl_cons_ne _ _ c3Tail_ne_nil],
    List.drop_append_eq_append_drop, c3Head_length,
    show (20 - 445 : Nat) = 0 from rfl, List.drop_zero,
    show c3Head.drop 20 = List.replicate 425 'b' from by
      rw [c3Head, List.drop_append_eq_append_drop,
        show (S "KEY_FINDINGS").drop 20 = [] from rfl,
        show (20 - (S "KEY_FINDINGS").length : Nat) = 8 from rfl,
        List.drop_replicate, List.nil_append]]

theorem c3_big_pass_one : compressContent c3Big 0 =
    ('\n' :: markerBody 1 ++ '\n' :: (List.replicate 425 'b' ++ '\n' :: joinNl c3Tail), 1) := by
  unfold compressContent
  rw [if_neg (by rw [c3Big_length]; unfold maxMemorySize; omega), c3Big_res]

theorem markerBody_one_length : (markerBody 1).length = 54 := rfl

theorem markerBody_two_length : (markerBody 2).length = 54 := rfl

theorem importantPatterns_replicate_b (n : Nat) :
    (importantPatterns.any fun p => isSubstr p (List.replicate n 'b')) = false := by
  have hk : ('K' : Char) ∉ List.replicate n 'b' := fun hm =>
    absurd (List.eq_of_mem_replicate hm) (by decide)
  have hu : ('U' : Char) ∉ List.replicate n 'b' := fun hm =>
    absurd (List.eq_of_mem_replicate hm) (by decide)
  have hr : ('R' : Char) ∉ List.replicate n 'b' := fun hm =>
    absurd (List.eq_of_mem_replicate hm) (by decide)
  have ht : ('T' : Char) ∉ List.replicate n 'b' := fun hm =>
    absurd (List.eq_of_mem_replicate hm) (by decide)
  have e1 : isSubstr (S "KEY_FINDINGS") (List.replicate n 'b') = false := by
    rw [show S "KEY_FINDINGS" = 'K' :: S "EY_FINDINGS" from rfl]
    exact isSubstr_not_mem_head _ _ _ hk
  have e2 : isSubstr (S "USER_PREFERENCES") (List.replicate n 'b') = false := by
    rw [show S "USER_PREFERENCES" = 'U' :: S "SER_PREFERENCES" from rfl]
    exact isSubstr_not_mem_head _ _ _ hu
  have e3 : isSubstr (S "RESEARCHED_TOPICS") (List.replicate n 'b') = false := by
    rw [show S "RESEARCHED_TOPICS" = 'R' :: S "ESEARCHED_TOPICS" from rfl]
    exact isSubstr_not_mem_head _ _ _ hr
  have e4 : isSubstr (S "TARGET_ROLE") (List.replicate n 'b') = false := by
    rw [show S "TARGET_ROLE" = 'T' :: S "ARGET_ROLE" from rfl]
    exact isSubstr_not_mem_head _ _ _ ht
  simp [importantPatterns, e1, e2, e3, e4]

theorem c3_pass1_length :
    ('\n' :: markerBody 1 ++ '\n' ::
      (List.replicate 425 'b' ++ '\n' :: joinNl c3Tail)).length = 24056 := by
  rw [List.length_append, List.length_cons, List.length_cons, markerBody_one_length,
    List.length_append, List.length_replicate, List.length_cons, joinNl_c3Tail_length]

theorem c3_pass1_join :
    ('\n' :: markerBody 1 ++ '\n' :: (List.replicate 425 'b' ++ '\n' :: joinNl c3Tail)) =
      joinNl ([] :: markerBody 1 :: List.replicate 425 'b' :: c3Tail) := by
  rw [joinNl_cons_ne ([] : Str) _ (List.cons_ne_nil _ _),
    joinNl_cons_ne (markerBody 1) _ (List.cons_ne_nil _ _),
    joinNl_cons_ne (List.replicate 425 'b') _ c3Tail_ne_nil]
  rfl

theorem c3_pass1_split :
    splitOnChar '\n'
      ('\n' :: markerBody 1 ++ '\n' :: (List.replicate 425 'b' ++ '\n' :: joinNl c3Tail)) =
      [] :: markerBody 1 :: List.replicate 425 'b' :: c3Tail := by
  rw [c3_pass1_join]
  apply splitOnChar_joinNl
  · intro x hx
    rcases List.mem_cons.mp hx with h1 | hx2
    · rw [h1]; exact List.not_mem_nil _
    rcases List.mem_cons.mp hx2 with h2 | hx3
    · rw [h2]; decide
    rcases List.mem_cons.mp hx3 with h3 | hx4
    · rw [h3]
      intro hm
      exact absurd (List.eq_of_mem_replicate hm) (by decide)
    · obtain ⟨i, _, he⟩ := List.mem_map.mp (by rw [c3Tail] at hx4; exact hx4)
      rw [← he]; exact newline_not_mem_keyLine _
  · exact List.cons_ne_nil _ _

theorem iar_pass1 :
    importantAndRecent ([] :: markerBody 1 :: List.replicate 425 'b' :: c3Tail) =
      c3Tail ++ c3Tail := by
  unfold importantAndRecent
  have hfilter : (([] :: markerBody 1 :: List.replicate 425 'b' :: c3Tail).filter fun l =>
      importantPatterns.any fun p => isSubstr p l) = c3Tail := by
    rw [List.filter_cons, if_neg (by decide), List.filter_cons, if_neg (by decide),
      List.filter_cons,
      if_neg (fun hc => by
        rw [importantPatterns_replicate_b] at hc
        exact Bool.noConfusion hc)]
    apply List.filter_eq_self.mpr
    intro a ha
    obtain ⟨i, _, he⟩ := List.mem_map.mp (by rw [c3Tail] at ha; exact ha)
    rw [← he]; exact patterns_keyLine _
  have htake : takeLast 50 ([] :: markerBody 1 :: List.replicate 425 'b' :: c3Tail) =
      c3Tail := by
    unfold takeLast
    rw [List.length_cons, List.length_cons, List.length_cons, c3Tail_length]
    rfl
  rw [hfilter, htake]

theorem c3_big_pass_two :
    compressContent
      ('\n' :: markerBody 1 ++ '\n' :: (List.replicate 425 'b' ++ '\n' :: joinNl c3Tail)) 1 =
      ('\n' :: markerBody 2 ++ '\n' :: joinNl c3Tail, 2) := by
  have hdd := dedupeRecent_append_drop c3Tail 0
    (fun x hx => by
      obtain ⟨i, _, he⟩ := List.mem_map.mp (by rw [c3Tail] at hx; exact hx)
      rw [← he]; exact pyStrip_keyLine_ne_nil _)
    c3Tail_nodup
  rw [List.drop_zero] at hdd
  have hcj : compressedJoin
      ('\n' :: markerBody 1 ++ '\n' :: (List.replicate 425 'b' ++ '\n' :: joinNl c3Tail)) =
      joinNl c3Tail := by
    unfold compressedJoin
    rw [c3_pass1_split, iar_pass1, hdd]
  have hres : compressResult
      ('\n' :: markerBody 1 ++ '\n' :: (List.replicate 425 'b' ++ '\n' :: joinNl c3Tail)) =
      joinNl c3Tail := by
    unfold compressResult
    rw [hcj, if_neg (by rw [joinNl_c3Tail_length]; unfold maxMemorySize; omega)]
  unfold compressContent
  rw [if_neg (by rw [c3_pass1_length]; unfold maxMemorySize; omega), hres]

end SapCoach

namespace SapCoach

theorem leadsWith_prefix_ext (p : Str) : ∀ (q r : Str), leadsWith p q = true →
    leadsWith p (q ++ r) = true := by
  induction p with
  | nil => intro q r _; rw [leadsWith]
  | cons c cs ih =>
    intro q r h
    cases q with
    | nil =>
      rw [leadsWith] at h
      exact absurd h (by decide)
    | cons d ds =>
      rw [List.cons_append, leadsWith]
      rw [leadsWith] at h
      have h1 := ((Bool.and_eq_true _ _).mp h).1
      have h2 := ((Bool.and_eq_true _ _).mp h).2
      rw [h1, ih ds r h2]
      rfl

end SapCoach

namespace SapCoach

/-- C8: parsing the end-to-end scenario text
`1. ResearchAgent: find certs\n2. AnalysisAgent: assess skills` with the
two-agent roster yields exactly the ordered subtask list
`[(ResearchAgent, find certs, false), (AnalysisAgent, assess skills, false)]`. -/
theorem c8_end_to_end_numbered :
    (parseOutput c8Text demoRoster).todo =
      [⟨S "ResearchAgent", S "find certs", false⟩,
       ⟨S "AnalysisAgent", S "assess skills", false⟩] := by decide

/-- C9: when the old string occurs more than once in the buffer, the simple
toolkit edit operation leaves the buffer unchanged and returns a one-element
Python set (never a plain string), violating the declared string return
type. -/
theorem c9_ambiguous_edit_returns_set (mem old new : Str)
    (h1 : isSubstr old mem = true) (h2 : 1 < pyCount mem old) :
    simpleEditMemory mem old new =
      (mem, PyVal.pset [S "Warning: Found " ++ natStr (pyCount mem old) ++
        S " occurrences of '" ++ old ++
        S "'. Please confirm which occurrence to replace or use more specific context."]) ∧
      ∀ s, (simpleEditMemory mem old new).2 ≠ PyVal.pstr s := by
  have he : simpleEditMemory mem old new =
      (mem, PyVal.pset [S "Warning: Found " ++ natStr (pyCount mem old) ++
        S " occurrences of '" ++ old ++
        S "'. Please confirm which occurrence to replace or use more specific context."]) := by
    unfold simpleEditMemory
    rw [if_neg (fun hc => hc h1), if_pos h2]
  refine ⟨he, fun s hs => ?_⟩
  rw [he] at hs
  exact PyVal.noConfusion hs

/-- Witness for C9 at the buffer `abab` with old string `ab` (two
occurrences). -/
theorem c9_ambiguous_edit_returns_set_witness :
    isSubstr (S "ab") (S "abab") = true ∧ 1 < pyCount (S "abab") (S "ab") ∧
      simpleEditMemory (S "abab") (S "ab") (S "X") =
        (S "abab", PyVal.pset [S "Warning: Found " ++ natStr (pyCount (S "abab") (S "ab")) ++
          S " occurrences of '" ++ S "ab" ++
          S "'. Please confirm which occurrence to replace or use more specific context."]) :=
  ⟨by decide, by decide,
    (c9_ambiguous_edit_returns_set (S "ab" ++ S "ab") (S "ab") (S "X") (by decide)
      (by decide)).1⟩

/-- C10: for any action other than read, write, edit, status and compress,
the enhanced dispatcher returns the unknown-action error and the state
(buffer and every metadata field) unchanged. -/
theorem c10_unknown_action_frame (st : MemState) (now action content old new : Str)
    (h1 : action ≠ S "read") (h2 : action ≠ S "write") (h3 : action ≠ S "edit")
    (h4 : action ≠ S "status") (h5 : action ≠ S "compress") :
    enhancedMemory st now action content old new =
      (st, S "Error: Unknown action '" ++ action ++
        S "'. Valid actions: read, write, edit, status, compress.") := by
  unfold enhancedMemory
  rw [if_neg h1, if_neg h2, if_neg h3, if_neg h4, if_neg h5]

/-- Witness for C10 at the action `delete` on a non-trivial state. -/
theorem c10_unknown_action_frame_witness :
    enhancedMemory c7St (S "t0") (S "delete") (S "c") (S "o") (S "n") =
      (c7St, S "Error: Unknown action '" ++ S "delete" ++
        S "'. Valid actions: read, write, edit, status, compress.") :=
  c10_unknown_action_frame c7St (S "t0") (S "delete") (S "c") (S "o") (S "n")
    (by decide) (by decide) (by decide) (by decide) (by decide)

end SapCoach

namespace SapCoach

/-- Counterexample for C6: on a free-text input the subtasks come out in
roster order (ResearchAgent first), although AnalysisAgent is mentioned
first in the text (index 0 versus index 44). -/
theorem c6_text_order_counterexample :
    (parseOutput c6Text demoRoster).todo.map Subtask.agent_name =
        [S "ResearchAgent", S "AnalysisAgent"] ∧
      firstIdxCI (S "AnalysisAgent") c6Text = some 0 ∧
      firstIdxCI (S "ResearchAgent") c6Text = some 44 := by decide

/-- C6 (amended): the free-text strategy emits subtasks in roster order (a
sublist of the roster name list), and only for agents whose name is
mentioned (case-insensitively) in the text. -/
theorem c6_free_text_roster_order (text : Str) (names : List Str) :
    ((freeTextTasks text names).map Subtask.agent_name).Sublist names ∧
      ∀ s ∈ freeTextTasks text names, isSubstrCI s.agent_name text = true := by
  unfold freeTextTasks
  exact ⟨ftGo_names_sublist text names names, ftGo_mention text names names⟩

/-- Witness for C6 (amended) on the concrete free-text input. -/
theorem c6_free_text_roster_order_witness :
    ((freeTextTasks c6Text (rosterNames demoRoster)).map Subtask.agent_name).Sublist
        (rosterNames demoRoster) ∧
      isSubstrCI (S "ResearchAgent") c6Text = true := by
  refine ⟨(c6_free_text_roster_order c6Text (rosterNames demoRoster)).1, ?_⟩
  exact (c6_free_text_roster_order c6Text (rosterNames demoRoster)).2
    ⟨S "ResearchAgent", S "should gather data", false⟩ (by decide)

/-- Counterexample for C7: for the enhanced store, the status string of an
overwriting write does not contain the discarded previous content. -/
theorem c7_previous_content_not_echoed :
    c7St.full_memory ≠ [] ∧
      isSubstr c7St.full_memory ((writeMemory c7St (S "t0") (S "new")).2) = false := by
  decide

/-- C7 (amended): an overwriting write always flags the overwrite in its
status string; the enhanced store echoes only the size of the previous
content, while the simple store echoes the previous content itself. -/
theorem c7_overwrite_warning :
    (∀ (st : MemState) (now content : Str), st.full_memory ≠ [] →
      leadsWith (S "Warning: Overwriting existing content (")
          ((writeMemory st now content).2) = true ∧
        isSubstr (natStr st.full_memory.length ++ S " chars")
          ((writeMemory st now content).2) = true) ∧
    (∀ mem content : Str, mem ≠ [] →
      leadsWith (S "Warning: Overwriting existing content.")
          ((simpleWriteMemory mem content).2) = true ∧
        isSubstr mem ((simpleWriteMemory mem content).2) = true) := by
  constructor
  · intro st now content h
    have hmsg : (writeMemory st now content).2 =
        S "Warning: Overwriting existing content (" ++ (natStr st.full_memory.length ++
          (S " chars). New content size: " ++ (natStr (writeStored st content).1.length ++
            S " chars. Memory has been updated successfully."))) := by
      unfold writeMemory
      rw [if_pos h]
      show (S "Warning: Overwriting existing content (" ++ natStr st.full_memory.length ++
          S " chars). New content size: " ++ natStr (writeStored st content).1.length ++
          S " chars. Memory has been updated successfully.") = _
      simp only [List.append_assoc]
    rw [hmsg]
    constructor
    · exact leadsWith_append _ _
    · rw [show S " chars). New content size: " =
          S " chars" ++ S "). New content size: " from rfl,
        List.append_assoc (S " chars"),
        ← List.append_assoc (natStr st.full_memory.length) (S " chars")]
      exact isSubstr_sandwich _ _ _
  · intro mem content h
    have hmsg : (simpleWriteMemory mem content).2 =
        S "Warning: Overwriting existing content. Previous content was:\n" ++
          (mem ++ S "\n\nMemory has been updated successfully.") := by
      unfold simpleWriteMemory
      rw [if_pos h]
      show (S "Warning: Overwriting existing content. Previous content was:\n" ++ mem ++
          S "\n\nMemory has been updated successfully.") = _
      simp only [List.append_assoc]
    rw [hmsg]
    constructor
    · exact leadsWith_prefix_ext _ _ _ (by decide)
    · exact isSubstr_sandwich _ _ _

/-- Witness for C7 (amended) on the concrete non-empty states. -/
theorem c7_overwrite_warning_witness :
    leadsWith (S "Warning: Overwriting existing content (")
        ((writeMemory c7St (S "t0") (S "new")).2) = true ∧
      isSubstr (S "secret42") ((simpleWriteMemory (S "secret42") (S "new")).2) = true := by
  constructor
  · exact (c7_overwrite_warning.1 c7St (S "t0") (S "new") (by decide)).1
  · exact (c7_overwrite_warning.2 (S "secret42") (S "new") (by decide)).2

end SapCoach

namespace SapCoach

/-- C4: the enhanced edit returns a not-found error with no mutation when
the old string is absent, an ambiguous-match warning with no mutation when
it occurs more than once, and otherwise (when no compression triggers)
performs exactly one replacement with a success status. -/
theorem c4_edit_branches (st : MemState) (now old new : Str) :
    (isSubstr old st.full_memory = false →
      editMemory st now old new =
        (st, S "Error: '" ++ old ++ S "' not found in memory.")) ∧
    (isSubstr old st.full_memory = true → 1 < pyCount st.full_memory old →
      editMemory st now old new =
        (st, S "Warning: Found " ++ natStr (pyCount st.full_memory old) ++
          S " occurrences of '" ++ old ++
          S "'. Please provide more specific context or use edit_multiple operation.")) ∧
    (isSubstr old st.full_memory = true → pyCount st.full_memory old ≤ 1 →
      (replace1 st.full_memory old new).length ≤ compressionThreshold →
      (editMemory st now old new).1.full_memory = replace1 st.full_memory old new ∧
        (editMemory st now old new).2 =
          S "Memory edited successfully. 1 occurrence replaced.") := by
  refine ⟨?_, ?_, ?_⟩
  · intro h
    unfold editMemory
    rw [if_pos (show ¬ isSubstr old st.full_memory = true from fun hc => by
      rw [h] at hc; exact Bool.noConfusion hc)]
  · intro h h2
    unfold editMemory
    rw [if_neg (fun hc => hc h), if_pos h2]
  · intro h h2 h3
    have hc1 : ¬¬ isSubstr old st.full_memory = true := fun hc => hc h
    have hc2 : ¬ 1 < pyCount st.full_memory old := by omega
    have hc3 : ¬ compressionThreshold < (replace1 st.full_memory old new).length := by
      omega
    constructor
    · show (editMemory st now old new).1.full_memory = _
      unfold editMemory
      rw [if_neg hc1, if_neg hc2, if_neg hc3]
      rfl
    · show (editMemory st now old new).2 = _
      unfold editMemory
      rw [if_neg hc1, if_neg hc2]

/-- Witness for C4: all three branches at the buffer `alpha beta alpha`. -/
theorem c4_edit_branches_witness :
    editMemory c4St (S "t0") (S "zzz") (S "w") =
        (c4St, S "Error: '" ++ S "zzz" ++ S "' not found in memory.") ∧
      editMemory c4St (S "t0") (S "alpha") (S "beta") =
        (c4St, S "Warning: Found " ++ natStr (pyCount c4St.full_memory (S "alpha")) ++
          S " occurrences of '" ++ S "alpha" ++
          S "'. Please provide more specific context or use edit_multiple operation.") ∧
      (editMemory c4St (S "t0") (S "beta") (S "B")).1.full_memory =
        replace1 c4St.full_memory (S "beta") (S "B") :=
  ⟨(c4_edit_branches c4St (S "t0") (S "zzz") (S "w")).1 (by decide),
   (c4_edit_branches c4St (S "t0") (S "alpha") (S "beta")).2.1 (by decide) (by decide),
   ((c4_edit_branches c4St (S "t0") (S "beta") (S "B")).2.2 (by decide) (by decide)
     (by decide)).1⟩

/-- C1: plan extraction is total for a non-empty roster: the subtask list
always has at least one entry, and when every strategy fails the single
fallback subtask is assigned to the first roster agent with the generic
description. -/
theorem c1_plan_extraction_total (text : Str) (a : AgentInfo) (rest : List AgentInfo) :
    1 ≤ (parseOutput text (a :: rest)).todo.length ∧
      (NoStrategyYields text (a :: rest) →
        (parseOutput text (a :: rest)).todo = [⟨a.name, genericFallbackTask, false⟩]) := by
  constructor
  · exact extractPlan_pos text (a :: rest)
  · intro hN
    obtain ⟨h1, h2, h3, h4, h5⟩ := hN
    show extractPlan text (a :: rest) = _
    unfold extractPlan
    cases hp : planSectionContent text with
    | none =>
      show extractPlanFallback text (a :: rest) = _
      rw [extractPlanFallback_minimal text (a :: rest) h1 h2 h3 h4, rosterNames_cons]
      rfl
    | some raw =>
      obtain ⟨hr1, hr2⟩ := h5 raw hp
      show (if numberedBoldMatches (pyStrip raw) ≠ [] then
          mkTasks (numberedBoldMatches (pyStrip raw))
        else if simpleNumberedMatches (pyStrip raw) ≠ [] then
          mkTasks (simpleNumberedMatches (pyStrip raw))
        else extractPlanFallback text (a :: rest)) = _
      rw [if_neg (fun hc => hc hr1), if_neg (fun hc => hc hr2),
        extractPlanFallback_minimal text (a :: rest) h1 h2 h3 h4, rosterNames_cons]
      rfl

/-- Witness for C1 on a text matched by no strategy and a one-agent
roster. -/
theorem c1_plan_extraction_total_witness :
    NoStrategyYields (S "zzz") [researchAgentInfo] ∧
      (parseOutput (S "zzz") [researchAgentInfo]).todo =
        [⟨researchAgentInfo.name, genericFallbackTask, false⟩] := by
  have hN : NoStrategyYields (S "zzz") [researchAgentInfo] := by
    refine ⟨by decide, by decide, by decide, by decide, ?_⟩
    intro raw hraw
    rw [show planSectionContent (S "zzz") = none from by decide] at hraw
    exact Option.noConfusion hraw
  exact ⟨hN, (c1_plan_extraction_total (S "zzz") researchAgentInfo []).2 hN⟩

end SapCoach

namespace SapCoach

/-- C2 is refuted on a concrete input: writing a 24001-character content
into an empty enhanced store leaves a 24056-character buffer, because the
compression marker is prepended after the hard truncation to capacity. -/
theorem c2_capacity_exceeded_on_write :
    ((writeMemory memInit (S "t0") (List.replicate 24001 'a')).1).full_memory.length =
        24056 ∧
      maxMemorySize <
        ((writeMemory memInit (S "t0") (List.replicate 24001 'a')).1).full_memory.length := by
  have hstored : writeStored memInit (List.replicate 24001 'a') =
      ('\n' :: markerBody 1 ++ '\n' :: List.replicate maxMemorySize 'a', 1) := by
    unfold writeStored
    rw [if_pos (by rw [List.length_replicate]; unfold maxMemorySize; omega)]
    exact compressContent_replicate_big 24001 0 (by unfold maxMemorySize; omega)
  have hmem : (writeMemory memInit (S "t0") (List.replicate 24001 'a')).1.full_memory =
      '\n' :: markerBody 1 ++ '\n' :: List.replicate maxMemorySize 'a' := by
    unfold writeMemory
    rw [if_neg (fun hc => hc rfl), hstored]
    rfl
  have hlen : (writeMemory memInit (S "t0")
      (List.replicate 24001 'a')).1.full_memory.length = 24056 := by
    rw [hmem, List.length_append, List.length_cons, List.length_cons,
      markerBody_one_length, List.length_replicate]
    unfold maxMemorySize
    omega
  exact ⟨hlen, by rw [hlen]; unfold maxMemorySize; omega⟩

/-- Counterexample for C3: on the 51-important-line buffer `c3Big`, the
first compression pass keeps a 425-character tail of the first line (24056
characters in total), and the second pass silently drops that content (no
`b` remains) and shrinks the buffer to 23630 characters: the two passes
differ by far more than one marker line. -/
theorem c3_double_compress_loses_content :
    (('b' ∈ (compressContent c3Big 0).1) ∧
        ((compressContent c3Big 0).1).length = 24056) ∧
      (('b' ∉ (compressContent (compressContent c3Big 0).1
            (compressContent c3Big 0).2).1) ∧
        ((compressContent (compressContent c3Big 0).1
            (compressContent c3Big 0).2).1).length = 23630) := by
  have hp2 : compressContent (compressContent c3Big 0).1 (compressContent c3Big 0).2 =
      ('\n' :: markerBody 2 ++ '\n' :: joinNl c3Tail, 2) := by
    rw [c3_big_pass_one]
    exact c3_big_pass_two
  refine ⟨⟨?_, ?_⟩, ?_, ?_⟩
  · rw [c3_big_pass_one]
    show 'b' ∈ '\n' :: markerBody 1 ++ '\n' ::
      (List.replicate 425 'b' ++ '\n' :: joinNl c3Tail)
    exact List.mem_append.mpr (Or.inr (List.mem_cons_of_mem _
      (List.mem_append.mpr (Or.inl (List.mem_replicate.mpr ⟨by decide, rfl⟩)))))
  · rw [c3_big_pass_one]
    exact c3_pass1_length
  · rw [hp2]
    show 'b' ∉ '\n' :: markerBody 2 ++ '\n' :: joinNl c3Tail
    intro hm
    rcases List.mem_append.mp hm with hl | hr
    · exact absurd hl (by decide)
    · rcases List.mem_cons.mp hr with h3 | h4
      · exact absurd h3 (by decide)
      · exact b_not_mem_joinNl_c3Tail h4
  · rw [hp2]
    show ('\n' :: markerBody 2 ++ '\n' :: joinNl c3Tail).length = 23630
    rw [List.length_append, List.length_cons, List.length_cons, markerBody_two_length,
      joinNl_c3Tail_length]

/-- C3 (amended): compression is idempotent exactly when the compressed
result is within capacity: the second pass then returns its input unchanged
through the early size check, without re-adding any marker. -/
theorem c3_compress_idempotent_within_capacity (b : Str) (n : Nat)
    (h : ((compressContent b n).1).length ≤ maxMemorySize) :
    compressContent (compressContent b n).1 (compressContent b n).2 =
      compressContent b n := by
  have key : ∀ (c : Str) (m : Nat), c.length ≤ maxMemorySize →
      compressContent c m = (c, m) := by
    intro c m hc
    unfold compressContent
    rw [if_pos hc]
  rw [key _ _ h]

/-- Witness for C3 (amended) at a small buffer. -/
theorem c3_compress_idempotent_within_capacity_witness :
    compressContent (compressContent (S "hi") 0).1 (compressContent (S "hi") 0).2 =
      compressContent (S "hi") 0 :=
  c3_compress_idempotent_within_capacity (S "hi") 0 (by decide)

/-- C5 is refuted on a concrete instance: for three agents with 20-line
memories the assembled 29980-character context is truncated, but the
39-character notice is prepended after the 24000-character budget is spent,
so the returned string has 24020 characters, exceeding the maximum. -/
theorem c5_context_exceeds_max :
    (buildMemoryContextString c5Mems []).length = 24020 ∧
      maxContextLength < (buildMemoryContextString c5Mems []).length := by
  have hlen : (buildMemoryContextString c5Mems []).length = 24020 := by
    rw [c5_final_string, List.length_append, noticeStr_length, c5_truncKept_length]
  exact ⟨hlen, by rw [hlen]; unfold maxContextLength; omega⟩

end SapCoach
